import Mathlib

/-!
Verification of the bashful task runner (task.go) against its specification.
Strings are shallowly embedded as lists of characters (one entry per byte of
ASCII command text / one display cell), fallible paths as explicit outcome
types, and the concurrent scheduler as an event-step function driven by an
arbitrary (adversarially ordered) list of runner events.
-/

set_option maxHeartbeats 1000000

namespace Bashful

/-- Strings are modelled as lists of characters: the source manipulates ASCII
command text, so one list entry corresponds to one byte and (for rendering)
one display cell. -/
abbrev Str := List Char

/-- Embeds Go `strings.Replace(s, pat, rep, -1)` (used by `inflate`,
task.go:165,188): replace all non-overlapping occurrences of `pat` in `s`,
scanning left to right.  The first `Nat` argument counts pattern characters
still to be skipped after a successful match.  The degenerate empty pattern
(never supplied by the source, whose replica marker is a fixed non-empty
option string) is modelled as the identity. -/
def replaceAllAux (pat rep : Str) : Nat → Str → Str
  | _, [] => []
  | 0, c :: rest =>
    if pat ≠ [] ∧ pat.isPrefixOf (c :: rest) then
      rep ++ replaceAllAux pat rep (pat.length - 1) rest
    else
      c :: replaceAllAux pat rep 0 rest
  | k + 1, _ :: rest => replaceAllAux pat rep k rest

/-- Embeds Go `strings.Replace(s, pat, rep, -1)`. -/
def replaceAll (s pat rep : Str) : Str :=
  replaceAllAux pat rep 0 s

/-- Embeds Go `strings.Split(s, " ")` (task.go:176): split on every single
space character; the empty string yields one empty field, exactly as in Go. -/
def splitSpace : Str → List Str
  | [] => [[]]
  | c :: rest =>
    let r := splitSpace rest
    if c = ' ' then
      [] :: r
    else
      match r with
      | [] => [[c]]
      | t :: ts => (c :: t) :: ts

/-- Embeds `variableSplitFunc` (task.go:262-293).  `termWidth` is the value
returned by the terminal width query.  The result is the pair of the number of
bytes to advance and the token ( `none` models Go's `nil` token, i.e. "request
more data"). -/
def variableSplitFunc (termWidth : Nat) (data : Str) (atEOF : Bool) :
    Nat × Option Str :=
  if atEOF = true ∧ data = [] then
    (0, none)
  else
    match data.findIdx? (fun c => c = '\n') with
    | some i => (i + 1, some (data.take i))
    | none =>
      match data.findIdx? (fun c => c = '\r') with
      | some i => (i + 1, some (data.take i))
      | none =>
        if data.length > 2 * termWidth then
          (2 * termWidth, some (data.take (2 * termWidth)))
        else if atEOF = true then
          (data.length, some data)
        else
          (0, none)

/-- Embeds the `CommandStatus` enumeration (task.go:57-64). -/
inductive CommandStatus
  | statusRunning
  | statusPending
  | statusSuccess
  | statusError
deriving DecidableEq, Repr

/-- Embeds `CmdIR` (task.go:84-91), the intermediate-result record a runner
places on the event channel.  The task pointer is dropped (events are indexed
by child position in the scheduler model); the Go zero value `""` for an
absent stdout/stderr line is kept as the empty string. -/
structure CmdIR where
  status : CommandStatus
  stdout : Str
  stderr : Str
  complete : Bool
  returnCode : Int
deriving DecidableEq, Repr

/-- The first record `run` emits (task.go:298), before the subprocess is even
spawned: status Running, no output, return code -1. -/
def initialCmdIR : CmdIR :=
  { status := .statusRunning, stdout := [], stderr := [], complete := false
  , returnCode := -1 }

/-- One output line read from the subprocess pipes, tagged by which pipe it
arrived on.  Lines are the tokens produced by the scanner (already split by
`variableSplitFunc` and stripped by vtclean, an external library). -/
inductive OutLine
  | fromStdout (s : Str)
  | fromStderr (s : Str)
deriving DecidableEq, Repr

/-- Embeds the per-line event of `run` (task.go:332,338): a Running record
carrying the line, with return code -1. -/
def lineCmdIR : OutLine → CmdIR
  | .fromStdout s =>
    { status := .statusRunning, stdout := s, stderr := [], complete := false
    , returnCode := -1 }
  | .fromStderr s =>
    { status := .statusRunning, stdout := [], stderr := s, complete := false
    , returnCode := -1 }

/-- Embeds the terminal record of `run` (task.go:363-366): Success when the
return code is zero or the task ignores failure, Error otherwise. -/
def terminalCmdIR (ignoreFailure : Bool) (rc : Int) : CmdIR :=
  if rc = 0 ∨ ignoreFailure = true then
    { status := .statusSuccess, stdout := [], stderr := [], complete := true
    , returnCode := rc }
  else
    { status := .statusError, stdout := [], stderr := [], complete := true
    , returnCode := rc }

/-- The externally observable behaviour of one subprocess: either spawning
failed (`Cmd.Start` returned an error, discarded at task.go:310), or the
process ran, produced the given interleaved output lines and exited with the
given status. -/
inductive RunBehavior
  | spawnFailed
  | ran (lines : List OutLine) (rc : Int)
deriving DecidableEq, Repr

/-- The outcome of one `run` call: the records placed on the event channel,
and whether the goroutine finished normally or panicked. -/
inductive RunOutcome
  | ok (emitted : List CmdIR)
  | panicked (emitted : List CmdIR)
deriving DecidableEq, Repr

/-- The records a `RunOutcome` placed on the channel before ending. -/
def RunOutcome.emitted : RunOutcome → List CmdIR
  | .ok l => l
  | .panicked l => l

/-- Embeds the event emission of `run` (task.go:295-371).  The initial Running
record is sent before `Cmd.Start`.  When spawning fails, the pipes deliver no
tokens, `Cmd.Wait` returns a non-ExitError error, and the
`task.Command.Cmd.ProcessState.Sys()` call at task.go:356 dereferences a nil
`ProcessState`: the goroutine panics after the initial record and no terminal
record is ever sent.  When the process ran, one Running record per output line
is sent, then the single terminal record. -/
def runEmits (ignoreFailure : Bool) : RunBehavior → RunOutcome
  | .spawnFailed => .panicked [initialCmdIR]
  | .ran lines rc =>
    .ok (initialCmdIR :: (lines.map lineCmdIR ++ [terminalCmdIR ignoreFailure rc]))

/-- The three compiled line templates of the renderer
(`lineDefaultTemplate`, `lineParallelTemplate`, `lineLastParallelTemplate`).
Modelled from the spec: the template strings themselves live in the
out-of-scope configuration component, and per §4.6/§9 "the three line variants
are data"; the task model only needs to know which variant a task carries. -/
inductive LineTemplate
  | lineDefaultTemplate
  | lineParallelTemplate
  | lineLastParallelTemplate
deriving DecidableEq, Repr

/-- Embeds `LineInfo` (task.go:93-100), the rendering snapshot. -/
structure LineInfo where
  status : Str := []
  title : Str := []
  msg : Str := []
  spinner : Str := []
  eta : Str := []
  split : Str := []
deriving DecidableEq, Repr

/-- Embeds `TaskCommand` (task.go:47-55).  `exec.Cmd` is represented by the
argv it was built from; `EstimatedRuntime` is the `time.Duration` (an int64
nanosecond count, -1 when unknown); start/stop wall-clock times are not
modelled (real time). -/
structure TaskCommand where
  argv : List Str := []
  estimatedRuntime : Int := 0
  started : Bool := false
  complete : Bool := false
  returnCode : Int := 0
deriving DecidableEq, Repr

/-- Embeds `TaskDisplay` (task.go:41-45). -/
structure TaskDisplay where
  template : LineTemplate := .lineDefaultTemplate
  index : Nat := 0
  values : LineInfo := {}
deriving DecidableEq, Repr

/-- The non-recursive fields of `Task` (task.go:26-39).  The log channel, log
file and error buffer are I/O resources outside the shallow embedding. -/
structure TaskCore where
  name : Str := []
  cmdString : Str := []
  stopOnFailure : Bool := false
  showTaskOutput : Bool := false
  ignoreFailure : Bool := false
  forEach : List Str := []
  display : TaskDisplay := {}
  command : TaskCommand := {}
deriving DecidableEq, Repr

/-- Embeds `Task` (task.go:26-39): the non-recursive fields plus the
`ParallelTasks` children list. -/
inductive Task
  | mk (core : TaskCore) (parallelTasks : List Task)

/-- The scalar fields of a task. -/
def Task.core : Task → TaskCore
  | .mk c _ => c

/-- The `ParallelTasks` children of a task. -/
def Task.parallelTasks : Task → List Task
  | .mk _ p => p

/-- The `Name` field of a task. -/
def Task.name (t : Task) : Str := t.core.name

/-- The `CmdString` field of a task. -/
def Task.cmdString (t : Task) : Str := t.core.cmdString

/-- The `ForEach` field of a task. -/
def Task.forEach (t : Task) : List Str := t.core.forEach

/-- The `Display` field of a task. -/
def Task.display (t : Task) : TaskDisplay := t.core.display

/-- The `Command` field of a task. -/
def Task.command (t : Task) : TaskCommand := t.core.command

/-- The `IgnoreFailure` field of a task. -/
def Task.ignoreFailure (t : Task) : Bool := t.core.ignoreFailure

/-- The `StopOnFailure` field of a task. -/
def Task.stopOnFailure (t : Task) : Bool := t.core.stopOnFailure

/-- Replaces the scalar fields of a task. -/
def Task.withCore (t : Task) (c : TaskCore) : Task := .mk c t.parallelTasks

/-- Replaces the children of a task. -/
def Task.withParallelTasks (t : Task) (p : List Task) : Task := .mk t.core p

/-- Sets the `Display.Template` field of a task (the mutations at
task.go:136-139 and 147-151). -/
def Task.withTemplate (t : Task) (tpl : LineTemplate) : Task :=
  t.withCore { t.core with display := { t.core.display with template := tpl } }

/-- The in-memory `commandTimeCache`: exact command string to last observed
duration (nanoseconds). -/
abbrev TimeCache := List (Str × Int)

/-- Embeds `Task.inflate` (task.go:160-193).  `cache` is the global
`commandTimeCache`, `marker` is `Options.ReplicaReplaceString`.  The command
string has the replica marker substituted (only when the replica value is
non-empty), the estimated runtime is looked up in the cache (-1 on a miss),
the argv is the naive space split of the substituted command, the return code
is reset to -1, the template to the default variant and the display index to
`displayIdx`; the name falls back to the command string when empty, otherwise
gets the same substitution. -/
def inflate (cache : TimeCache) (marker : Str) (t : Task) (displayIdx : Nat)
    (replicaValue : Str) : Task :=
  let cmdString :=
    if replicaValue ≠ [] then replaceAll t.cmdString marker replicaValue
    else t.cmdString
  let est :=
    match cache.lookup cmdString with
    | some eta => eta
    | none => -1
  let name :=
    if t.name = [] then cmdString
    else if replicaValue ≠ [] then replaceAll t.name marker replicaValue
    else t.name
  t.withCore
    { t.core with
      cmdString := cmdString
      name := name
      command :=
        { t.core.command with
          argv := splitSpace cmdString
          estimatedRuntime := est
          returnCode := -1 }
      display :=
        { t.core.display with
          template := .lineDefaultTemplate
          index := displayIdx } }

/-- Embeds the per-replica body of the for-each loop of `Task.Create`
(task.go:130-141): restore the saved name and command string on the (threaded,
in-place mutated) child, recursively Create the replica — `rec` is the
recursive call at the remaining fuel — then override its template (the last
replica of this child's for-each list gets the last-parallel variant) and
append it to the inflated list.  The state is (threaded child, inflated list
so far, `totalTasks` increments so far). -/
def replicaStep (rec : Task → Nat → Str → Task × Nat)
    (savedName savedCmd : Str) (k : Nat)
    (st : Task × List Task × Nat) (q : Nat × Str) : Task × List Task × Nat :=
  let s0 := st.1.withCore
    { st.1.core with name := savedName, cmdString := savedCmd }
  let res := rec s0 q.1 q.2
  let s1 := res.1.withTemplate
    (if q.1 = k - 1 then .lineLastParallelTemplate else .lineParallelTemplate)
  (s1, st.2.1 ++ [s1], st.2.2 + res.2)

/-- Embeds one iteration of the children loop of `Task.Create`
(task.go:125-154): a child with a non-empty for-each list is replicated once
per entry via `replicaStep`; a plain child is inflated in place at its
declared index (`totalTasks` is incremented unconditionally) and the last
declared child gets the last-parallel template.  `n` is the declared child
count. -/
def createChildStep (cache : TimeCache) (marker : Str)
    (rec : Task → Nat → Str → Task × Nat) (replicaValue : Str) (n : Nat)
    (acc : List Task × Nat) (p : Nat × Task) : List Task × Nat :=
  let subIndex := p.1
  let sub := p.2
  if sub.forEach ≠ [] then
    let r := sub.forEach.enum.foldl
      (replicaStep rec sub.name sub.cmdString sub.forEach.length)
      (sub, acc.1, acc.2)
    (r.2.1, r.2.2)
  else
    let s0 := inflate cache marker sub subIndex replicaValue
    let s1 := s0.withTemplate
      (if subIndex = n - 1 then .lineLastParallelTemplate
       else .lineParallelTemplate)
    (acc.1 ++ [s1], acc.2 + 1)

/-- Embeds `Task.Create` (task.go:116-158).  The extra `Nat` fuel bounds the
recursion depth (the Go recursion terminates on the depth of the task tree;
any fuel at least that depth computes the same result).  The second component
of the result counts the `totalTasks` increments performed.  The task is
inflated, its own command counted, each declared child processed by
`createChildStep`, and the children list replaced by the inflated list. -/
def create (cache : TimeCache) (marker : Str) :
    Nat → Task → Nat → Str → Task × Nat
  | 0, t, _, _ => (t, 0)
  | fuel + 1, t0, displayStartIdx, replicaValue =>
    let t := inflate cache marker t0 displayStartIdx replicaValue
    let own : Nat := if t.cmdString ≠ [] then 1 else 0
    let r := t.parallelTasks.enum.foldl
      (createChildStep cache marker (fun a b c => create cache marker fuel a b c)
        replicaValue t.parallelTasks.length)
      ([], own)
    (t.withParallelTasks r.1, r.2)

/-- The command string `inflate` computes for a replica with value `v` of a
child whose saved command string is `savedCmd` (task.go:164-166). -/
def replicaCmd (marker savedCmd v : Str) : Str :=
  if v ≠ [] then replaceAll savedCmd marker v else savedCmd

/-- The name `inflate` computes for a replica with value `v` of a child whose
saved name and command string are `savedName` and `savedCmd`
(task.go:183-191). -/
def replicaName (marker savedName savedCmd v : Str) : Str :=
  if savedName = [] then replicaCmd marker savedCmd v
  else if v ≠ [] then replaceAll savedName marker v
  else savedName

/-- The static per-child data the scheduler consults when it processes a
terminal record: the child's failure-handling flags. -/
structure ChildSpec where
  stopOnFailure : Bool
  ignoreFailure : Bool
deriving DecidableEq, Repr

/-- The scheduler-visible runtime state of one child
(`Command.Started/Complete/ReturnCode`). -/
structure ChildRt where
  started : Bool
  complete : Bool
  returnCode : Int
deriving DecidableEq, Repr

/-- The runtime state of a fresh, unstarted child. -/
def ChildRt.initial : ChildRt :=
  { started := false, complete := false, returnCode := -1 }

/-- Embeds the mutable state of one `Process` call (task.go:426-575) together
with the process-wide globals it touches: per-child runtime records (as a
total function on child indices), the `runningCmds`, `lastStartedTask`,
`exitSignaled` and `completedTasks` counters, and the accumulated
`failedTasks` (as child indices).  Display state and log channels are I/O and
are not part of the scheduling state. -/
structure SchedState where
  rt : Nat → ChildRt
  runningCmds : Int
  lastStartedTask : Nat
  exitSignaled : Bool
  failedTasks : List Nat
  completedTasks : Nat

/-- Embeds the start-up phase of `Process` (task.go:453-470): every child is
reset to unstarted, then the first `min maxParallelCmds n` children are
launched in declared order. -/
def initSched (maxParallelCmds n : Nat) : SchedState :=
  { rt := fun i =>
      if i < min maxParallelCmds n then
        { ChildRt.initial with started := true }
      else ChildRt.initial
  , runningCmds := (min maxParallelCmds n : Nat)
  , lastStartedTask := min maxParallelCmds n
  , exitSignaled := false
  , failedTasks := []
  , completedTasks := 0 }

/-- An event the scheduler receives on the result channel, identified by the
index of the emitting child: either a non-terminal (Running) record, or the
terminal record carrying the child's exit code. -/
inductive SchedEv
  | out (idx : Nat)
  | term (idx : Nat) (rc : Int)
deriving DecidableEq, Repr

/-- Embeds task.go:497-505: mark the completing child complete with its
return code, bump `completedTasks`, decrement `runningCmds`, and fold the
runner's `exitSignaled` contribution (task.go:367-369) into the global flag. -/
def markComplete (s : SchedState) (idx : Nat) (rc : Int) (exitSig : Bool) :
    SchedState :=
  { s with
    rt := fun j =>
      if j = idx then { s.rt idx with complete := true, returnCode := rc }
      else s.rt j
    completedTasks := s.completedTasks + 1
    runningCmds := s.runningCmds - 1
    exitSignaled := s.exitSignaled || exitSig }

/-- Embeds task.go:507-516: when a thread has freed up and unstarted children
remain, launch the next one (in declared order) and advance
`lastStartedTask`. -/
def startNext (n : Nat) (s : SchedState) : SchedState :=
  if s.lastStartedTask < n then
    { s with
      rt := fun j =>
        if j = s.lastStartedTask then
          { s.rt s.lastStartedTask with started := true }
        else s.rt j
      runningCmds := s.runningCmds + 1
      lastStartedTask := s.lastStartedTask + 1 }
  else s

/-- Embeds one pass of the `resultChan` case of the `Process` loop
(task.go:493-571), composed with the terminal-record construction of `run`
(task.go:363-370) that fixes the record's status and sets the process-wide
`exitSignaled` flag.  A non-terminal record only updates display state (not
modelled here).  A terminal record marks the child complete, then —
unconditionally, before anything looks at the failure status — launches the
next unstarted child if one remains, and finally appends the child to
`failedTasks` when its status was Error.  The `if exitSignaled break` at
task.go:569 only breaks the enclosing `select`, not the loop, so it has no
effect on this state. -/
def schedStep (specs : List ChildSpec) (s : SchedState) : SchedEv → SchedState
  | .out _ => s
  | .term idx rc =>
    let spec := specs.getD idx { stopOnFailure := false, ignoreFailure := false }
    let isError : Bool := !(decide (rc = 0) || spec.ignoreFailure)
    let s2 := startNext specs.length
      (markComplete s idx rc (isError && spec.stopOnFailure))
    if isError = true then { s2 with failedTasks := s2.failedTasks ++ [idx] }
    else s2

/-- Runs the scheduler loop over a list of received events. -/
def execEvents (specs : List ChildSpec) (s : SchedState) :
    List SchedEv → SchedState
  | [] => s
  | e :: rest => execEvents specs (schedStep specs s e) rest

/-- Whether one event can actually occur in the given state: only a started,
not-yet-complete child has a live runner able to place a record on the
channel. -/
def evOK (specs : List ChildSpec) (s : SchedState) : SchedEv → Bool
  | .out idx =>
    decide (idx < specs.length) && (s.rt idx).started && !(s.rt idx).complete
  | .term idx _ =>
    decide (idx < specs.length) && (s.rt idx).started && !(s.rt idx).complete

/-- Whether a whole event sequence can occur from the given state. -/
def validEvents (specs : List ChildSpec) (s : SchedState) :
    List SchedEv → Bool
  | [] => true
  | e :: rest => evOK specs s e && validEvents specs (schedStep specs s e) rest

/-- The set of children that are started and not yet complete (the quantity
bounded by invariant 1 of the spec). -/
def runningSet (n : Nat) (s : SchedState) : Finset ℕ :=
  (Finset.range n).filter fun i => (s.rt i).started = true ∧ (s.rt i).complete = false

/-- The number of children that are started and not yet complete. -/
def countRunning (n : Nat) (s : SchedState) : Nat :=
  (runningSet n s).card

/-- Modelled from the spec (§4.5): `visualLength` (from the out-of-scope
screen component) measures a string in display cells, ignoring ANSI escape
sequences.  Strings in this embedding are cell lists, so it is the length. -/
def visualLength (s : Str) : Nat := s.length

/-- Modelled from the spec (§4.5): `trimToVisualLength` slices a string to the
given number of display cells (a non-positive request yields the empty
string). -/
def trimToVisualLength (s : Str) (n : Int) : Str := s.take n.toNat

/-- Modelled from the spec (§8 "Visual length is invariant under insertion of
ANSI SGR sequences"): the color wrappers from the out-of-scope screen
component only add SGR escapes, which occupy no display cells, so on the cell
model they are the identity. -/
def red (s : Str) : Str := s

/-- Embeds Go `strconv.Itoa` on the exit codes used by the renderer. -/
def intToStr (i : Int) : Str := (toString i).toList

/-- One placeholder of a compiled line template: a literal run of cells or a
reference to one of the six `LineInfo` fields. -/
inductive Slot
  | lit (s : Str)
  | statusF
  | titleF
  | msgF
  | spinnerF
  | etaF
  | splitF
deriving DecidableEq, Repr

/-- A compiled line template is a sequence of slots.  Modelled from the spec
(§4.6): the concrete template strings live in the out-of-scope configuration
component; rendering substitutes each named field of the `LineInfo`. -/
abbrev Template := List Slot

/-- Renders one slot against a `LineInfo`. -/
def renderSlot (v : LineInfo) : Slot → Str
  | .lit s => s
  | .statusF => v.status
  | .titleF => v.title
  | .msgF => v.msg
  | .spinnerF => v.spinner
  | .etaF => v.eta
  | .splitF => v.split

/-- Embeds `template.Execute` on a line template: substitute every slot. -/
def executeTemplate (tpl : Template) (v : LineInfo) : Str :=
  (tpl.map (renderSlot v)).flatten

/-- The result of rendering one task line: the final line, the computed split
filler width, and the (mutated) display values. -/
structure RenderResult where
  line : Str
  splitWidth : Nat
  finalValues : LineInfo
deriving DecidableEq, Repr

/-- Embeds the pre-render state fixup of `Task.String` (task.go:208-214):
when the command is complete the spinner and eta are cleared and, for a
non-ignored failure, the message is replaced by the red
`Exited with error (rc)` text. -/
def preambleValues (complete : Bool) (returnCode : Int) (ignoreFailure : Bool)
    (values0 : LineInfo) : LineInfo :=
  if complete then
    let v := { values0 with spinner := [], eta := [] }
    if returnCode ≠ 0 ∧ ignoreFailure = false then
      { v with
        msg := red ("Exited with error (".toList ++ intToStr returnCode
          ++ ")".toList) }
    else v
  else values0

/-- Embeds the measuring-and-trimming passes of `Task.String`
(task.go:229-240): with the split filler emptied, the fixed portion is
measured with the message blanked, and a message longer than
`terminalWidth - fixedLen` is trimmed to that budget minus three cells with an
ellipsis appended. -/
def trimmedValues (termWidth : Nat) (tpl : Template) (v1 : LineInfo) :
    LineInfo :=
  let vSplit := { v1 with split := [] }
  let maxMessageWidth : Int := (termWidth : Int) -
    (visualLength (executeTemplate tpl { vSplit with msg := [] }) : Int)
  if (visualLength vSplit.msg : Int) > maxMessageWidth then
    { vSplit with
      msg := trimToVisualLength vSplit.msg (maxMessageWidth - 3)
        ++ "...".toList }
  else vSplit

/-- Embeds the split-width computation of `Task.String` (task.go:243-248):
the terminal width minus the rendered visual length, clamped at zero. -/
def splitWidthOf (termWidth : Nat) (tpl : Template) (v1 : LineInfo) : Nat :=
  let splitWidthI : Int := (termWidth : Int) -
    (visualLength (executeTemplate tpl (trimmedValues termWidth tpl v1)) : Int)
  (if splitWidthI < 0 then 0 else splitWidthI).toNat

/-- Embeds the three rendering passes of `Task.String` (task.go:229-254):
trim the message against the measured fixed portion, derive the split width,
and render once more with the split filler inserted. -/
def renderPasses (termWidth : Nat) (tpl : Template) (v1 : LineInfo) :
    RenderResult :=
  let values3 := { trimmedValues termWidth tpl v1 with
    split := List.replicate (splitWidthOf termWidth tpl v1) ' ' }
  { line := executeTemplate tpl values3
  , splitWidth := splitWidthOf termWidth tpl v1
  , finalValues := values3 }

/-- Embeds `Task.String` (task.go:206-255): the completion fixup followed by
the three rendering passes.  The name-fixup at task.go:217-223 mutates only
`task.Name`, which the template never reads (it reads
`Display.Values.Title`), so it does not affect the returned line. -/
def taskString (termWidth : Nat) (tpl : Template) (complete : Bool)
    (returnCode : Int) (ignoreFailure : Bool) (values0 : LineInfo) :
    RenderResult :=
  renderPasses termWidth tpl (preambleValues complete returnCode ignoreFailure values0)

/-- Modelled from the spec (§4.7): `MinMax` (a helper from the out-of-scope
utility component) returns the minimum and maximum of a list of seconds
values, `(0, 0)` on the empty list. -/
def MinMax (xs : List ℚ) : ℚ × ℚ :=
  match xs with
  | [] => (0, 0)
  | x :: rest => (rest.foldl min x, rest.foldl max x)

/-- Modelled from the spec (§4.7 "advance `now` to the smallest in-flight
end-time, remove it"): `remove` (from the out-of-scope utility component)
drops the first occurrence of the given value. -/
def removeFirst (v : ℚ) : List ℚ → List ℚ
  | [] => []
  | x :: rest => if x = v then rest else x :: removeFirst v rest

/-- Embeds `time.Duration.Seconds()`: a nanosecond count as rational
seconds. -/
def durationSeconds (d : Int) : ℚ := (d : ℚ) / 1000000000

/-- The loop state of `Task.EstimatedRuntime` (task.go:380-383). -/
structure EtaAcc where
  taskEndSecond : List ℚ
  currentSecond : ℚ
  remainingParallelTasks : Int
  maxParallelEstimatedRuntime : ℚ
deriving DecidableEq, Repr

/-- Embeds one iteration of the `Task.EstimatedRuntime` loop for a child with
a known estimate (task.go:387-405): when no parallel slot remains, free one by
advancing the current second to the smallest in-flight end time and removing
it; then schedule this child to end `estSeconds` later and fold the largest
in-flight end time into the running maximum. -/
def etaStep (acc0 : EtaAcc) (estSeconds : ℚ) : EtaAcc :=
  let acc :=
    if acc0.remainingParallelTasks = 0 then
      let minEndSecond := (MinMax acc0.taskEndSecond).1
      { acc0 with
        remainingParallelTasks := acc0.remainingParallelTasks + 1
        taskEndSecond := removeFirst minEndSecond acc0.taskEndSecond
        currentSecond := minEndSecond }
    else acc0
  let taskEndSecond := acc.taskEndSecond ++ [acc.currentSecond + estSeconds]
  { acc with
    taskEndSecond := taskEndSecond
    remainingParallelTasks := acc.remainingParallelTasks - 1
    maxParallelEstimatedRuntime :=
      max acc.maxParallelEstimatedRuntime (MinMax taskEndSecond).2 }

/-- Embeds `Task.EstimatedRuntime` (task.go:373-410): the task's own estimate
(when it is a leaf with a known estimate) plus the bounded-parallel simulation
over its children, skipping children without a command or without a known
estimate.  `maxParallelCmds` is `Options.MaxParallelCmds`. -/
def EstimatedRuntime (maxParallelCmds : Int) (t : Task) : ℚ :=
  let etaSeconds : ℚ :=
    if t.cmdString ≠ [] ∧ t.command.estimatedRuntime ≠ -1 then
      durationSeconds t.command.estimatedRuntime
    else 0
  let final := t.parallelTasks.foldl
    (fun acc sub =>
      if sub.cmdString ≠ [] ∧ sub.command.estimatedRuntime ≠ -1 then
        etaStep acc (durationSeconds sub.command.estimatedRuntime)
      else acc)
    { taskEndSecond := []
    , currentSecond := 0
    , remainingParallelTasks := maxParallelCmds
    , maxParallelEstimatedRuntime := 0 }
  etaSeconds + final.maxParallelEstimatedRuntime

/-- The claim's reading of the splitter ("the token is the bytes before the
first such terminator"), written from the spec's words for comparison: a
newline or carriage return — whichever comes first — terminates the token. -/
def claimSplitFirstTerminator (termWidth : Nat) (data : Str) (atEOF : Bool) :
    Nat × Option Str :=
  if atEOF = true ∧ data = [] then
    (0, none)
  else
    match data.findIdx? (fun c => c = '\n' ∨ c = '\r') with
    | some i => (i + 1, some (data.take i))
    | none =>
      if data.length > 2 * termWidth then
        (2 * termWidth, some (data.take (2 * termWidth)))
      else if atEOF = true then
        (data.length, some data)
      else
        (0, none)

/-- The amended description of the splitter, written from the amended claim's
words: a newline terminates the token if the buffer contains one (newline
takes priority), otherwise a carriage return does; otherwise an over-long
buffer is cut at twice the terminal width; otherwise at end of stream the
residual (if any) is the final token. -/
def amendedSplit (termWidth : Nat) (data : Str) (atEOF : Bool) :
    Nat × Option Str :=
  if data.contains '\n' then
    let tok := data.takeWhile (fun c => c ≠ '\n')
    (tok.length + 1, some tok)
  else if data.contains '\r' then
    let tok := data.takeWhile (fun c => c ≠ '\r')
    (tok.length + 1, some tok)
  else if data.length > 2 * termWidth then
    (2 * termWidth, some (data.take (2 * termWidth)))
  else if atEOF = true then
    if data = [] then (0, none) else (data.length, some data)
  else
    (0, none)

/-- Inflation failure per the spec's error taxonomy (§7).  Modelled from the
spec: `ErrMalformedTask` appears nowhere in the source. -/
inductive InflateError
  | errMalformedTask
deriving DecidableEq, Repr

/-- Modelled from the spec (§4.1, §7, §8 boundary behaviour): an inflation
that rejects a non-group task whose post-substitution argv has an empty first
token, returning `ErrMalformedTask` before any execution.  Used to compare the
spec's claimed behaviour with the source's `inflate`. -/
def inflateChecked (cache : TimeCache) (marker : Str) (t : Task)
    (displayIdx : Nat) (replicaValue : Str) : Except InflateError Task :=
  let t1 := inflate cache marker t displayIdx replicaValue
  if t1.parallelTasks.isEmpty = true ∧ t1.command.argv.headD [] = [] then
    .error .errMalformedTask
  else
    .ok t1

/-- A leaf task whose command string starts with a space, so its argv has an
empty first token after splitting. -/
def malformedLeaf : Task :=
  .mk { name := "bad".toList, cmdString := " x".toList } []

/-- The for-each child of scenario S5: `say $V` / `echo $V` over x, y, z. -/
def forEachChild : Task :=
  .mk
    { name := "say $V".toList
      cmdString := "echo $V".toList
      forEach := ["x".toList, "y".toList, "z".toList] } []

/-- A plain child with no for-each list. -/
def plainChild : Task :=
  .mk { name := "plain".toList, cmdString := "true".toList } []

/-- A group mixing a for-each child with a subsequent plain child. -/
def mixedGroup : Task :=
  .mk { name := "grp".toList } [forEachChild, plainChild]

/-- A group whose single child is the for-each child of scenario S5. -/
def forEachGroup : Task :=
  .mk { name := "grp".toList } [forEachChild]

/-- A template with a two-cell literal prefix, the message and the split
filler: the shape of the default line template reduced to the fields relevant
to width accounting. -/
def demoTemplate : Template := [.lit "> ".toList, .msgF, .splitF]

/-- The child specs of scenario S3: three children run with parallelism 1,
the second with stop-on-failure. -/
def stopSpecs : List ChildSpec :=
  [ { stopOnFailure := false, ignoreFailure := false }
  , { stopOnFailure := true, ignoreFailure := false }
  , { stopOnFailure := false, ignoreFailure := false } ]

/-- The event order of scenario S3 under parallelism 1: child 0 succeeds,
child 1 exits 1, child 2 (started while child 1's terminal record was being
handled) succeeds. -/
def stopEvents : List SchedEv := [.term 0 0, .term 1 1, .term 2 0]

/-- A single child whose failures are ignored (scenario S4's first child). -/
def specsIgn : List ChildSpec :=
  [ { stopOnFailure := false, ignoreFailure := true } ]

/-- The scheduler invariant maintained by `Process`: `lastStartedTask` never
exceeds the child count, exactly the children below it are started (declared
start order), unstarted children are incomplete, and at most
`maxParallelCmds` children are started-and-incomplete. -/
def SchedInv (specs : List ChildSpec) (P : Nat) (s : SchedState) : Prop :=
  s.lastStartedTask ≤ specs.length ∧
  (∀ i, (s.rt i).started = true ↔ i < s.lastStartedTask) ∧
  (∀ i, (s.rt i).started = false → (s.rt i).complete = false) ∧
  countRunning specs.length s ≤ P

/-- The closed form of the ETA simulation state after `a * P + b` children of
identical estimate `d` seconds (with `1 ≤ b ≤ P`): `b` children of the current
wave end at `d * (a + 1)`, the remainder of the window still ends at `d * a`,
the current second is `d * a` and the running maximum is `d * (a + 1)`. -/
def etaSimState (P : Nat) (d : ℚ) (a b : Nat) : EtaAcc :=
  { taskEndSecond :=
      List.replicate (min (a * P + b) P - b) (d * a)
        ++ List.replicate b (d * (a + 1))
  , currentSecond := d * a
  , remainingParallelTasks := (P : Int) - (min (a * P + b) P : Nat)
  , maxParallelEstimatedRuntime := d * (a + 1) }

/-- The initial ETA simulation state (task.go:380-383). -/
def etaInitState (P : Int) : EtaAcc :=
  { taskEndSecond := []
  , currentSecond := 0
  , remainingParallelTasks := P
  , maxParallelEstimatedRuntime := 0 }

/-- A leaf task running a command with the given cached estimate
(nanoseconds). -/
def estLeaf (d : Int) : Task :=
  .mk { cmdString := "sleep 3".toList, command := { estimatedRuntime := d } } []

/-- A group of five children with a known 3-second estimate and one with an
unknown estimate. -/
def etaGroup : Task :=
  .mk {}
    [ estLeaf 3000000000, estLeaf 3000000000, estLeaf 3000000000
    , estLeaf (-1), estLeaf 3000000000, estLeaf 3000000000 ]

/-! ## Helper lemmas -/

/-- `findIdx?` for a single character, phrased through `contains` and
`takeWhile`. -/
theorem findIdx_char_spec (c : Char) (data : Str) :
    data.findIdx? (fun x => x = c) =
      if c ∈ data then
        some ((data.takeWhile (fun x => x ≠ c)).length)
      else none := by
  induction data with
  | nil => simp
  | cons x tl ih =>
    by_cases hx : x = c
    · subst hx
      simp [List.findIdx?_cons]
    · rcases Decidable.em (c ∈ tl) with hc | hc <;>
        simp [List.findIdx?_cons, hx, Ne.symm hx, ih, List.takeWhile_cons, hc]

/-- Taking as many elements as `takeWhile` keeps recovers `takeWhile`. -/
theorem take_takeWhile_length (p : Char → Bool) (data : Str) :
    data.take ((data.takeWhile p).length) = data.takeWhile p := by
  induction data with
  | nil => simp
  | cons x tl ih =>
    by_cases hx : p x
    · simp [List.takeWhile_cons, hx, ih]
    · simp [List.takeWhile_cons, hx]

/-- A per-line record is never terminal. -/
theorem lineCmdIR_complete (l : OutLine) : (lineCmdIR l).complete = false := by
  cases l <;> rfl

/-- A per-line record has status Running. -/
theorem lineCmdIR_status (l : OutLine) : (lineCmdIR l).status = .statusRunning := by
  cases l <;> rfl

/-- A per-line record carries return code -1. -/
theorem lineCmdIR_returnCode (l : OutLine) : (lineCmdIR l).returnCode = -1 := by
  cases l <;> rfl

/-- The terminal record is terminal. -/
theorem terminalCmdIR_complete (ign : Bool) (rc : Int) :
    (terminalCmdIR ign rc).complete = true := by
  unfold terminalCmdIR; split <;> rfl

/-- The terminal record carries the exit code. -/
theorem terminalCmdIR_returnCode (ign : Bool) (rc : Int) :
    (terminalCmdIR ign rc).returnCode = rc := by
  unfold terminalCmdIR; split <;> rfl

/-- The terminal record's status is Success exactly on a zero exit code or an
ignored failure. -/
theorem terminalCmdIR_status_iff (ign : Bool) (rc : Int) :
    ((terminalCmdIR ign rc).status = .statusSuccess ↔ (rc = 0 ∨ ign = true)) ∧
    ((terminalCmdIR ign rc).status = .statusError ↔ ¬ (rc = 0 ∨ ign = true)) := by
  unfold terminalCmdIR
  split <;> rename_i h <;> simp [h]

/-! ## Claim C3 -/

/-- Claim C3 (counterexample): on the buffer `a\r b\n` (carriage return before
newline) outside end-of-stream, the first terminator is the carriage return at
index 1, so the claimed behaviour is the token `a` with two bytes consumed —
but `variableSplitFunc` searches the whole buffer for a newline first and
returns the token `a\r b` with four bytes consumed. -/
theorem variableSplitFunc_not_first_terminator :
    variableSplitFunc 80 "a\rb\n".toList false = (4, some "a\rb".toList) ∧
    claimSplitFirstTerminator 80 "a\rb\n".toList false = (2, some "a".toList) ∧
    variableSplitFunc 80 "a\rb\n".toList false ≠
      claimSplitFirstTerminator 80 "a\rb\n".toList false := by
  decide

/-- Claim C3 (amended): the splitter consumes up to the first newline when the
buffer contains one (a newline anywhere takes priority over an earlier
carriage return), otherwise up to the first carriage return; otherwise a
buffer longer than twice the terminal width is cut at exactly that length;
otherwise at end of stream the non-empty residual is the final token and an
empty buffer emits nothing. -/
theorem variableSplitFunc_newline_priority (termWidth : Nat) (data : Str)
    (atEOF : Bool) :
    variableSplitFunc termWidth data atEOF = amendedSplit termWidth data atEOF := by
  unfold variableSplitFunc amendedSplit
  rw [findIdx_char_spec, findIdx_char_spec]
  by_cases hn : '\n' ∈ data
  · have hne : data ≠ [] := by
      rintro rfl; simp at hn
    simp [hn, hne, take_takeWhile_length]
  · by_cases hr : '\r' ∈ data
    · have hne : data ≠ [] := by
        rintro rfl; simp at hr
      simp [hn, hr, hne, take_takeWhile_length]
    · by_cases he : data = []
      · subst he
        cases atEOF <;> simp
      · simp [hn, hr, he]

/-! ## Claim C6 -/

/-- Claim C6 (counterexample): the spec's checked inflation rejects the leaf
task with command string `" x"` (whose argv has an empty first token) with
`ErrMalformedTask`, but the source's `inflate` accepts it and produces a
runnable command whose argv is `["", "x"]`. -/
theorem inflate_accepts_empty_first_token :
    inflateChecked [] "$V".toList malformedLeaf 0 [] = .error .errMalformedTask ∧
    (inflate [] "$V".toList malformedLeaf 0 []).command.argv = [[], "x".toList] ∧
    (inflate [] "$V".toList malformedLeaf 0 []).command.argv.headD "?".toList = [] := by
  refine ⟨rfl, rfl, rfl⟩

/-- Claim C6 (amended): inflation is total and never rejects a task: for every
task it produces the task whose argv is the naive space split of the
(replica-substituted) command string — an empty first token included — with
return code reset to -1, the requested display index, and the children left
untouched; no `ErrMalformedTask` path exists. -/
theorem inflate_total_shape (cache : TimeCache) (marker : Str) (t : Task)
    (idx : Nat) (rv : Str) :
    (inflate cache marker t idx rv).command.argv =
      splitSpace (if rv ≠ [] then replaceAll t.cmdString marker rv else t.cmdString) ∧
    (inflate cache marker t idx rv).command.returnCode = -1 ∧
    (inflate cache marker t idx rv).display.index = idx ∧
    (inflate cache marker t idx rv).parallelTasks = t.parallelTasks :=
  ⟨rfl, rfl, rfl, rfl⟩

/-! ## Claim C9 -/

/-- Claim C9 (counterexample): when spawning fails the runner does not surface
an Error terminal record with return code -1 — it emits only the initial
Running record and then panics dereferencing the nil `ProcessState`; no
record with `complete = true` (of any status or return code) is ever placed
on the channel. -/
theorem spawn_failure_no_error_record :
    runEmits false .spawnFailed = .panicked [initialCmdIR] ∧
    (runEmits false .spawnFailed).emitted.filter (fun r => r.complete) = [] := by
  refine ⟨rfl, rfl⟩

/-- Claim C9 (amended): on spawn failure the runner emits exactly the initial
Running record (status Running, no output, return code -1) and then crashes;
no terminal record is emitted and the failure is not surfaced as an Error
record. -/
theorem spawn_failure_behaviour (ign : Bool) :
    runEmits ign .spawnFailed = .panicked [initialCmdIR] ∧
    (runEmits ign .spawnFailed).emitted.filter (fun r => r.complete) = [] ∧
    initialCmdIR.status = .statusRunning ∧
    initialCmdIR.returnCode = -1 := by
  refine ⟨rfl, rfl, rfl, rfl⟩

/-! ## Claim C10 -/

/-- Claim C10: every record emitted before the terminal record has status
Running and return code -1 (a runner never places a Pending record on the
channel), and the first record emitted precedes any output, carrying neither a
stdout nor a stderr line. -/
theorem run_pre_terminal_records (ign : Bool) (b : RunBehavior) :
    (runEmits ign b).emitted.head? = some initialCmdIR ∧
    initialCmdIR.stdout = [] ∧ initialCmdIR.stderr = [] ∧
    ∀ r ∈ (runEmits ign b).emitted,
      r.status ≠ .statusPending ∧
      (r.complete = false → r.status = .statusRunning ∧ r.returnCode = -1) := by
  cases b with
  | spawnFailed =>
    refine ⟨rfl, rfl, rfl, ?_⟩
    intro r hr
    simp [runEmits, RunOutcome.emitted] at hr
    subst hr
    exact ⟨by decide, fun _ => ⟨rfl, rfl⟩⟩
  | ran lines rc =>
    refine ⟨rfl, rfl, rfl, ?_⟩
    intro r hr
    simp [runEmits, RunOutcome.emitted] at hr
    rcases hr with hr | ⟨l, _, hl⟩ | hr
    · subst hr
      exact ⟨by decide, fun _ => ⟨rfl, rfl⟩⟩
    · subst hl
      refine ⟨?_, fun _ => ⟨lineCmdIR_status l, lineCmdIR_returnCode l⟩⟩
      rw [lineCmdIR_status l]
      decide
    · subst hr
      refine ⟨?_, fun hc => ?_⟩
      · unfold terminalCmdIR
        split <;> simp
      · rw [terminalCmdIR_complete] at hc
        exact absurd hc (by decide)

/-- Claim C10 witness: the theorem applied to a run with one stdout line. -/
theorem run_pre_terminal_records_witness :
    initialCmdIR ∈ (runEmits true (.ran [.fromStdout "hi".toList] 0)).emitted ∧
    initialCmdIR.status ≠ .statusPending :=
  ⟨by decide,
    ((run_pre_terminal_records true (.ran [.fromStdout "hi".toList] 0)).2.2.2
      initialCmdIR (by decide)).1⟩

/-! ## Claim C4 -/

/-- Claim C4 (counterexample): not every run emits a terminal record — a run
whose subprocess spawn fails emits zero records with `complete = true`
(the runner panics first), not exactly one. -/
theorem run_no_terminal_record_on_spawn_failure :
    ((runEmits true .spawnFailed).emitted.filter (fun r => r.complete)).length = 0 ∧
    (0 : Nat) ≠ 1 := by
  refine ⟨rfl, by decide⟩

/-- Claim C4 (amended): every run whose subprocess spawn succeeds emits
exactly one terminal record; it is the last record emitted, has
`complete = true` and carries the exit code; its status is Success exactly
when the return code is zero or the task ignores failure (so a child running
`false` with ignore-failure set yields a Success record with return code 1),
and the scheduler does not add a child whose failure is ignored to the
failed-tasks list. -/
theorem run_terminal_record_spec (ign : Bool) (lines : List OutLine) (rc : Int)
    (specs : List ChildSpec) (s : SchedState) (idx : Nat)
    (hign : (specs.getD idx { stopOnFailure := false, ignoreFailure := false }).ignoreFailure = true) :
    (runEmits ign (.ran lines rc)).emitted.filter (fun r => r.complete) =
      [terminalCmdIR ign rc] ∧
    (runEmits ign (.ran lines rc)).emitted.getLast? = some (terminalCmdIR ign rc) ∧
    (terminalCmdIR ign rc).complete = true ∧
    (terminalCmdIR ign rc).returnCode = rc ∧
    ((terminalCmdIR ign rc).status = .statusSuccess ↔ (rc = 0 ∨ ign = true)) ∧
    (schedStep specs s (.term idx rc)).failedTasks = s.failedTasks := by
  have hmapfilter : (lines.map lineCmdIR).filter (fun r => r.complete) = [] := by
    apply List.filter_eq_nil_iff.mpr
    intro a ha
    obtain ⟨l, _, hl⟩ := List.mem_map.mp ha
    subst hl
    simp [lineCmdIR_complete]
  refine ⟨?_, ?_, terminalCmdIR_complete ign rc, terminalCmdIR_returnCode ign rc,
    (terminalCmdIR_status_iff ign rc).1, ?_⟩
  · simp [runEmits, RunOutcome.emitted, List.filter_append, hmapfilter,
      initialCmdIR, terminalCmdIR_complete]
  · show (initialCmdIR :: (lines.map lineCmdIR ++ [terminalCmdIR ign rc])).getLast?
      = some (terminalCmdIR ign rc)
    rw [← List.cons_append, List.getLast?_concat]
  · simp only [List.getD_eq_getElem?_getD] at hign
    rcases Nat.lt_or_ge s.lastStartedTask specs.length with h | h
    · simp [schedStep, markComplete, startNext, hign, h]
    · simp [schedStep, markComplete, startNext, hign, Nat.not_lt.mpr h]

/-- Claim C4 witness: the theorem applied to a child running `false`
(exit code 1) with ignore-failure set. -/
theorem run_terminal_record_spec_witness :
    ((specsIgn.getD 0 { stopOnFailure := false, ignoreFailure := false }).ignoreFailure = true) ∧
    ((terminalCmdIR true 1).status = .statusSuccess ↔ ((1 : Int) = 0 ∨ true = true)) :=
  ⟨by decide,
    (run_terminal_record_spec true [] 1 specsIgn (initSched 1 1) 0 (by decide)).2.2.2.2.1⟩

/-! ## Scheduler invariant lemmas (claims C1, C2) -/

/-- Marking a child complete does not change any started bit. -/
theorem markComplete_started (s : SchedState) (idx : Nat) (rc : Int) (b : Bool)
    (j : Nat) : ((markComplete s idx rc b).rt j).started = (s.rt j).started := by
  unfold markComplete
  by_cases hj : j = idx <;> simp [hj]

/-- Marking a child complete sets exactly its complete bit. -/
theorem markComplete_complete (s : SchedState) (idx : Nat) (rc : Int) (b : Bool)
    (j : Nat) : ((markComplete s idx rc b).rt j).complete =
      if j = idx then true else (s.rt j).complete := by
  unfold markComplete
  by_cases hj : j = idx <;> simp [hj]

/-- Marking a child complete removes it from the running set. -/
theorem runningSet_markComplete (n : Nat) (s : SchedState) (idx : Nat)
    (rc : Int) (b : Bool) (h : idx ∈ runningSet n s) :
    runningSet n (markComplete s idx rc b) = (runningSet n s).erase idx := by
  ext j
  simp only [runningSet, Finset.mem_filter, Finset.mem_range, Finset.mem_erase,
    markComplete] at h ⊢
  by_cases hj : j = idx
  · subst hj
    simp
  · simp [hj]

/-- When an unstarted child remains, launching it adds it to the running
set. -/
theorem runningSet_startNext_fire (n : Nat) (s : SchedState)
    (hlt : s.lastStartedTask < n)
    (hc : (s.rt s.lastStartedTask).complete = false) :
    runningSet n (startNext n s) = insert s.lastStartedTask (runningSet n s) := by
  ext j
  simp only [runningSet, startNext, if_pos hlt, Finset.mem_filter,
    Finset.mem_range, Finset.mem_insert]
  by_cases hj : j = s.lastStartedTask
  · subst hj
    simp [hlt, hc]
  · simp [hj]

/-- One valid terminal event, followed by the unconditional launch of the
next unstarted child, preserves the scheduler invariant. -/
theorem schedInv_term (specs : List ChildSpec) (P : Nat) (s : SchedState)
    (idx : Nat) (rc : Int) (b : Bool)
    (hlen : s.lastStartedTask ≤ specs.length)
    (hstart : ∀ i, (s.rt i).started = true ↔ i < s.lastStartedTask)
    (hnc : ∀ i, (s.rt i).started = false → (s.rt i).complete = false)
    (hcard : countRunning specs.length s ≤ P)
    (hidx : idx < specs.length)
    (hstarted : (s.rt idx).started = true)
    (hncomp : (s.rt idx).complete = false) :
    SchedInv specs P (startNext specs.length (markComplete s idx rc b)) := by
  have hmem : idx ∈ runningSet specs.length s := by
    simp [runningSet, hidx, hstarted, hncomp]
  have hposc : 1 ≤ countRunning specs.length s :=
    Finset.card_pos.mpr ⟨idx, hmem⟩
  have hcard_m : countRunning specs.length (markComplete s idx rc b) =
      countRunning specs.length s - 1 := by
    unfold countRunning
    rw [runningSet_markComplete _ _ _ _ _ hmem, Finset.card_erase_of_mem hmem]
  have hm_last : (markComplete s idx rc b).lastStartedTask = s.lastStartedTask := rfl
  have hidx_lt : idx < s.lastStartedTask := (hstart idx).mp hstarted
  by_cases hlt : s.lastStartedTask < specs.length
  · -- a further child exists and is launched
    have hlast_ns : (s.rt s.lastStartedTask).started = false := by
      cases h : (s.rt s.lastStartedTask).started
      · rfl
      · exact absurd ((hstart _).mp h) (lt_irrefl _)
    have hlast_nc : ((markComplete s idx rc b).rt s.lastStartedTask).complete = false := by
      rw [markComplete_complete]
      rw [if_neg (by omega)]
      exact hnc _ hlast_ns
    have hset : runningSet specs.length (startNext specs.length (markComplete s idx rc b)) =
        insert s.lastStartedTask (runningSet specs.length (markComplete s idx rc b)) := by
      have := runningSet_startNext_fire specs.length (markComplete s idx rc b)
        (by rw [hm_last]; exact hlt) (by rw [hm_last]; exact hlast_nc)
      rw [hm_last] at this
      exact this
    have hnotmem : s.lastStartedTask ∉ runningSet specs.length (markComplete s idx rc b) := by
      simp only [runningSet, Finset.mem_filter, Finset.mem_range, not_and]
      intro _ hstarted2
      rw [markComplete_started] at hstarted2
      rw [hlast_ns] at hstarted2
      exact absurd hstarted2 (by decide)
    refine ⟨?_, ?_, ?_, ?_⟩
    · show (startNext specs.length (markComplete s idx rc b)).lastStartedTask ≤ specs.length
      unfold startNext
      rw [hm_last, if_pos hlt]
      simpa using hlt
    · intro i
      unfold startNext
      rw [hm_last, if_pos hlt]
      simp only
      by_cases hi : i = s.lastStartedTask
      · subst hi
        simp
      · simp only [if_neg hi, markComplete_started, hstart i]
        omega
    · intro i
      unfold startNext
      rw [hm_last, if_pos hlt]
      simp only
      by_cases hi : i = s.lastStartedTask
      · subst hi
        simp
      · simp only [if_neg hi, markComplete_started, markComplete_complete]
        intro hsi
        rw [if_neg ?_]
        · exact hnc i hsi
        · intro hii
          subst hii
          rw [hstarted] at hsi
          exact absurd hsi (by decide)
    · show countRunning specs.length (startNext specs.length (markComplete s idx rc b)) ≤ P
      unfold countRunning
      rw [hset, Finset.card_insert_of_not_mem hnotmem]
      have : (runningSet specs.length (markComplete s idx rc b)).card =
          countRunning specs.length s - 1 := hcard_m
      rw [this]
      omega
  · -- no further children: startNext is the identity
    rw [startNext, hm_last, if_neg hlt]
    refine ⟨by rw [hm_last]; exact hlen, ?_, ?_, ?_⟩
    · intro i
      rw [markComplete_started, hm_last]
      exact hstart i
    · intro i hsi
      rw [markComplete_started] at hsi
      rw [markComplete_complete, if_neg ?_]
      · exact hnc i hsi
      · intro hii
        subst hii
        rw [hstarted] at hsi
        exact absurd hsi (by decide)
    · have h1 := hcard_m
      rw [countRunning] at h1
      rw [countRunning]
      omega

/-- The trailing failed-tasks bookkeeping does not affect the invariant. -/
theorem schedInv_failedTasks (specs : List ChildSpec) (P : Nat)
    (s : SchedState) (l : List Nat) (h : SchedInv specs P s) :
    SchedInv specs P { s with failedTasks := l } := h

/-- One valid scheduler step preserves the invariant. -/
theorem schedInv_step (specs : List ChildSpec) (P : Nat) (s : SchedState)
    (e : SchedEv) (hinv : SchedInv specs P s) (hok : evOK specs s e = true) :
    SchedInv specs P (schedStep specs s e) := by
  obtain ⟨hlen, hstart, hnc, hcard⟩ := hinv
  cases e with
  | out idx => exact ⟨hlen, hstart, hnc, hcard⟩
  | term idx rc =>
    simp only [evOK, Bool.and_eq_true, decide_eq_true_eq,
      Bool.not_eq_true'] at hok
    obtain ⟨⟨hidx, hstarted⟩, hncomp⟩ := hok
    have hbase := schedInv_term specs P s idx rc
      ((!(decide (rc = 0) ||
          (specs.getD idx { stopOnFailure := false, ignoreFailure := false }).ignoreFailure)) &&
        (specs.getD idx { stopOnFailure := false, ignoreFailure := false }).stopOnFailure)
      hlen hstart hnc hcard hidx hstarted hncomp
    simp only [schedStep]
    split
    · exact schedInv_failedTasks _ _ _ _ hbase
    · exact hbase

/-- The start-up state satisfies the invariant. -/
theorem schedInv_init (specs : List ChildSpec) (P : Nat) :
    SchedInv specs P (initSched P specs.length) := by
  refine ⟨Nat.min_le_right _ _, ?_, ?_, ?_⟩
  · intro i
    simp only [initSched]
    by_cases h : i < min P specs.length
    · rw [if_pos h]
      simp [h]
    · rw [if_neg h]
      simp [ChildRt.initial, h]
  · intro i
    simp only [initSched]
    by_cases h : i < min P specs.length
    · rw [if_pos h]
      simp
    · rw [if_neg h]
      simp [ChildRt.initial]
  · have hset : runningSet specs.length (initSched P specs.length) =
        Finset.range (min P specs.length) := by
      ext i
      simp only [runningSet, Finset.mem_filter, Finset.mem_range, initSched]
      by_cases h : i < min P specs.length
      · rw [if_pos h]
        simp only [ChildRt.initial]
        simp
        omega
      · rw [if_neg h]
        simp only [ChildRt.initial]
        simp
        omega
    rw [countRunning, hset, Finset.card_range]
    exact Nat.min_le_left _ _

/-- Every valid event sequence preserves the invariant. -/
theorem schedInv_exec (specs : List ChildSpec) (P : Nat) (s : SchedState)
    (evs : List SchedEv) (hinv : SchedInv specs P s)
    (hv : validEvents specs s evs = true) :
    SchedInv specs P (execEvents specs s evs) := by
  induction evs generalizing s with
  | nil => exact hinv
  | cons e rest ih =>
    simp only [validEvents, Bool.and_eq_true] at hv
    exact ih _ (schedInv_step specs P s e hinv hv.1) hv.2

/-- Processing a terminal record when unstarted children remain launches the
next child (by index) within that same step. -/
theorem schedStep_term_starts_next (specs : List ChildSpec) (s : SchedState)
    (idx : Nat) (rc : Int) (hlt : s.lastStartedTask < specs.length) :
    ((schedStep specs s (.term idx rc)).rt s.lastStartedTask).started = true ∧
    (schedStep specs s (.term idx rc)).lastStartedTask = s.lastStartedTask + 1 := by
  have key : ∀ (m : SchedState), m.lastStartedTask = s.lastStartedTask →
      ((startNext specs.length m).rt s.lastStartedTask).started = true ∧
      (startNext specs.length m).lastStartedTask = s.lastStartedTask + 1 := by
    intro m hm
    unfold startNext
    rw [hm, if_pos hlt]
    constructor
    · simp
    · rfl
  simp only [schedStep]
  split
  · exact key _ rfl
  · exact key _ rfl

/-! ## Claim C2 -/

/-- Claim C2: at every moment of a valid run, at most `maxParallelCmds`
children are started and not yet complete; the started children are exactly
an order-respecting prefix (children start in declared order); and when a
terminal record is processed while unstarted children remain, the next child
by index is launched in the same event-handling step. -/
theorem process_parallelism_invariants (specs : List ChildSpec) (P : Nat)
    (evs : List SchedEv)
    (hv : validEvents specs (initSched P specs.length) evs = true) :
    countRunning specs.length (execEvents specs (initSched P specs.length) evs) ≤ P ∧
    (∀ i, ((execEvents specs (initSched P specs.length) evs).rt i).started = true ↔
        i < (execEvents specs (initSched P specs.length) evs).lastStartedTask) ∧
    (∀ idx rc,
      (execEvents specs (initSched P specs.length) evs).lastStartedTask < specs.length →
      ((schedStep specs (execEvents specs (initSched P specs.length) evs)
          (.term idx rc)).rt
          ((execEvents specs (initSched P specs.length) evs).lastStartedTask)).started
        = true) := by
  obtain ⟨hlen, hstart, hnc, hcard⟩ :=
    schedInv_exec specs P (initSched P specs.length) evs (schedInv_init specs P) hv
  exact ⟨hcard, hstart, fun idx rc hlt =>
    (schedStep_term_starts_next specs _ idx rc hlt).1⟩

/-- Claim C2 witness: the invariant theorem applied to a concrete valid
prefix of scenario S3's group at parallelism 2. -/
theorem process_parallelism_invariants_witness :
    validEvents stopSpecs (initSched 2 3) [.term 0 0] = true ∧
    countRunning 3 (execEvents stopSpecs (initSched 2 3) [.term 0 0]) ≤ 2 :=
  ⟨by decide,
    (process_parallelism_invariants stopSpecs 2 [.term 0 0] (by decide)).1⟩

/-! ## Claim C1 -/

/-- Claim C1 (counterexample): in scenario S3 (three children, parallelism 1,
the second failing with stop-on-failure), after the second child's terminal
record is processed the exit flag is set — but the third child has been
started in that very step, contradicting "the third child is never
started". -/
theorem stop_on_failure_third_child_started :
    (execEvents stopSpecs (initSched 1 3) [.term 0 0, .term 1 1]).exitSignaled = true ∧
    ((execEvents stopSpecs (initSched 1 3) [.term 0 0, .term 1 1]).rt 2).started = true := by
  refine ⟨rfl, rfl⟩

/-- Claim C1 (amended): a failing child with stop-on-failure (and failures
not ignored) sets the process-wide exit flag while its terminal record is
processed, but the scheduler nevertheless launches the next unstarted child
in the same event-handling step (the `break` the flag guards exits only the
`select`, so subsequent completions keep launching further children); in
scenario S3 all three children are started and run, and Process returns
exactly the failed second child. -/
theorem stop_on_failure_amended (specs : List ChildSpec) (s : SchedState)
    (idx : Nat) (rc : Int)
    (hstop : (specs.getD idx { stopOnFailure := false, ignoreFailure := false }).stopOnFailure = true)
    (hign : (specs.getD idx { stopOnFailure := false, ignoreFailure := false }).ignoreFailure = false)
    (hrc : rc ≠ 0) :
    (schedStep specs s (.term idx rc)).exitSignaled = true ∧
    (s.lastStartedTask < specs.length →
      ((schedStep specs s (.term idx rc)).rt s.lastStartedTask).started = true) ∧
    (execEvents stopSpecs (initSched 1 3) stopEvents).failedTasks = [1] ∧
    (execEvents stopSpecs (initSched 1 3) stopEvents).exitSignaled = true ∧
    ((execEvents stopSpecs (initSched 1 3) stopEvents).rt 2).complete = true ∧
    validEvents stopSpecs (initSched 1 3) stopEvents = true := by
  refine ⟨?_, fun hlt => (schedStep_term_starts_next specs s idx rc hlt).1,
    rfl, rfl, rfl, rfl⟩
  have key : ∀ (b : Bool), b = true →
      (startNext specs.length (markComplete s idx rc b)).exitSignaled = true := by
    intro b hb
    have h1 : (startNext specs.length (markComplete s idx rc b)).exitSignaled =
        (markComplete s idx rc b).exitSignaled := by
      unfold startNext
      split <;> rfl
    rw [h1]
    show (s.exitSignaled || b) = true
    rw [hb]
    simp
  have hb : ((!(decide (rc = 0) ||
      (specs.getD idx { stopOnFailure := false, ignoreFailure := false }).ignoreFailure)) &&
      (specs.getD idx { stopOnFailure := false, ignoreFailure := false }).stopOnFailure) = true := by
    rw [hstop, hign]
    simp [hrc]
  simp only [schedStep]
  split
  · exact key _ hb
  · exact key _ hb

/-- Claim C1 witness: the amended theorem applied at scenario S3's failing
second child. -/
theorem stop_on_failure_amended_witness :
    ((stopSpecs.getD 1 { stopOnFailure := false, ignoreFailure := false }).stopOnFailure = true) ∧
    (schedStep stopSpecs (execEvents stopSpecs (initSched 1 3) [.term 0 0])
      (.term 1 1)).exitSignaled = true :=
  ⟨by decide,
    (stop_on_failure_amended stopSpecs
      (execEvents stopSpecs (initSched 1 3) [.term 0 0]) 1 1
      (by decide) (by decide) (by decide)).1⟩

/-! ## Claim C5 -/

/-- Creating a leaf (no children) just inflates it: the children loop is
empty and the `totalTasks` count is 1 exactly when the inflated command is
non-empty. -/
theorem create_leaf (cache : TimeCache) (marker : Str) (fuel : Nat)
    (s : Task) (i : Nat) (v : Str) (h : s.parallelTasks = []) :
    create cache marker (fuel + 1) s i v =
      ((inflate cache marker s i v).withParallelTasks [],
        if (inflate cache marker s i v).cmdString ≠ [] then 1 else 0) := by
  simp only [create]
  have hpt : (inflate cache marker s i v).parallelTasks = [] := h
  rw [hpt]
  rfl

/-- The replica fold of `Task.Create`, characterised: over any suffix of the
for-each list (starting at replica index `j`), with any threaded leaf child
and any accumulated state, it appends one inflated replica per entry, each
carrying its replica index as display index, the substituted name and command,
and the last-parallel template exactly on replica index `k - 1`. -/
theorem replicaStep_foldl (cache : TimeCache) (marker : Str)
    (rec : Task → Nat → Str → Task × Nat)
    (hrec : ∀ s i v, s.parallelTasks = [] → rec s i v =
      ((inflate cache marker s i v).withParallelTasks [],
        if (inflate cache marker s i v).cmdString ≠ [] then 1 else 0))
    (savedName savedCmd : Str) (k : Nat) :
    ∀ (vs : List Str) (j : Nat) (s0 : Task) (fin : List Task) (tt : Nat),
      s0.parallelTasks = [] →
      ∃ (sEnd : Task) (newTasks : List Task) (ttEnd : Nat),
        (vs.enumFrom j).foldl (replicaStep rec savedName savedCmd k)
            (s0, fin, tt) = (sEnd, fin ++ newTasks, ttEnd) ∧
        newTasks.map (fun c => c.display.index) = List.range' j vs.length ∧
        newTasks.map (fun c => c.display.template) =
          (List.range' j vs.length).map
            (fun i => if i = k - 1 then LineTemplate.lineLastParallelTemplate
              else LineTemplate.lineParallelTemplate) ∧
        newTasks.map (fun c => c.cmdString) =
          vs.map (replicaCmd marker savedCmd) ∧
        newTasks.map (fun c => c.name) =
          vs.map (replicaName marker savedName savedCmd) := by
  intro vs
  induction vs with
  | nil =>
    intro j s0 fin tt _
    exact ⟨s0, [], tt, by simp [List.enumFrom], by simp [List.range'],
      by simp [List.range'], by simp, by simp⟩
  | cons v vs ih =>
    intro j s0 fin tt hpt
    rw [List.enumFrom_cons, List.foldl_cons]
    have hs0 : (s0.withCore
        { s0.core with name := savedName, cmdString := savedCmd }).parallelTasks
        = [] := hpt
    have hstep : replicaStep rec savedName savedCmd k (s0, fin, tt) (j, v) =
        (((inflate cache marker
              (s0.withCore { s0.core with name := savedName, cmdString := savedCmd })
              j v).withParallelTasks []).withTemplate
            (if j = k - 1 then .lineLastParallelTemplate
             else .lineParallelTemplate),
          fin ++ [((inflate cache marker
              (s0.withCore { s0.core with name := savedName, cmdString := savedCmd })
              j v).withParallelTasks []).withTemplate
            (if j = k - 1 then .lineLastParallelTemplate
             else .lineParallelTemplate)],
          tt + if (inflate cache marker
              (s0.withCore { s0.core with name := savedName, cmdString := savedCmd })
              j v).cmdString ≠ [] then 1 else 0) := by
      dsimp only [replicaStep]
      rw [hrec _ _ _ hs0]
    rw [hstep]
    obtain ⟨sEnd, newTasks, ttEnd, heq, hidx, htpl, hcmd, hnm⟩ := ih (j + 1)
      (((inflate cache marker
          (s0.withCore { s0.core with name := savedName, cmdString := savedCmd })
          j v).withParallelTasks []).withTemplate
        (if j = k - 1 then .lineLastParallelTemplate
         else .lineParallelTemplate))
      (fin ++ [((inflate cache marker
          (s0.withCore { s0.core with name := savedName, cmdString := savedCmd })
          j v).withParallelTasks []).withTemplate
        (if j = k - 1 then .lineLastParallelTemplate
         else .lineParallelTemplate)])
      (tt + if (inflate cache marker
          (s0.withCore { s0.core with name := savedName, cmdString := savedCmd })
          j v).cmdString ≠ [] then 1 else 0)
      rfl
    refine ⟨sEnd, ((inflate cache marker
        (s0.withCore { s0.core with name := savedName, cmdString := savedCmd })
        j v).withParallelTasks []).withTemplate
      (if j = k - 1 then .lineLastParallelTemplate
       else .lineParallelTemplate) :: newTasks, ttEnd, ?_, ?_, ?_, ?_, ?_⟩
    · rw [heq, List.append_assoc]
      rfl
    · rw [List.map_cons, hidx, List.length_cons, List.range'_succ]
      rfl
    · rw [List.map_cons, htpl, List.length_cons, List.range'_succ, List.map_cons]
      rfl
    · rw [List.map_cons, hcmd, List.map_cons]
      rfl
    · rw [List.map_cons, hnm, List.map_cons]
      rfl

/-- Claim C5 (counterexample): inflating the group whose children are a
for-each child over x, y, z followed by a plain child yields four children
with display indexes [0, 1, 2, 1] — the child at position 3 has index 1, so
the indexes are neither the positions nor a permutation of [0, 4) — and the
child at position 2 (the last replica of the for-each child) carries the
last-parallel template although it is not the last child of the inflated
list. -/
theorem create_displayIndex_not_positional :
    ((create [] "$V".toList 2 mixedGroup 0 []).1.parallelTasks.map
        (fun c => c.display.index)) = [0, 1, 2, 1] ∧
    ((create [] "$V".toList 2 mixedGroup 0 []).1.parallelTasks.map
        (fun c => c.display.template)) =
      [.lineParallelTemplate, .lineParallelTemplate, .lineLastParallelTemplate,
        .lineLastParallelTemplate] ∧
    [0, 1, 2, 1] ≠ [0, 1, 2, 3] := by
  refine ⟨by decide, by decide, by decide⟩

/-- Claim C5 (amended): for a group whose single child carries a for-each
list, inflation produces one leaf per entry, in order, whose display index is
its position in the inflated list (so the indexes are exactly
[0, number-of-replicas)), whose name and command have the replica marker
substituted, and of which exactly the last carries the last-parallel template
(in general — see the counterexample — a replicated child's display index is
its replica index and a plain child's is its declared index, so the
positional/permutation reading fails for mixed groups). -/
theorem create_single_forEach_inflation (cache : TimeCache) (marker : Str)
    (fuel : Nat) (gc : TaskCore) (sub : Task) (dIdx : Nat)
    (hleaf : sub.parallelTasks = [])
    (hfe : sub.forEach ≠ []) :
    ((create cache marker (fuel + 2) (Task.mk gc [sub]) dIdx []).1.parallelTasks.map
        (fun c => c.display.index)) = List.range sub.forEach.length ∧
    ((create cache marker (fuel + 2) (Task.mk gc [sub]) dIdx []).1.parallelTasks.map
        (fun c => c.display.template)) =
      (List.range sub.forEach.length).map
        (fun i => if i = sub.forEach.length - 1 then
            LineTemplate.lineLastParallelTemplate
          else LineTemplate.lineParallelTemplate) ∧
    ((create cache marker (fuel + 2) (Task.mk gc [sub]) dIdx []).1.parallelTasks.map
        (fun c => c.cmdString)) =
      sub.forEach.map (replicaCmd marker sub.cmdString) ∧
    ((create cache marker (fuel + 2) (Task.mk gc [sub]) dIdx []).1.parallelTasks.map
        (fun c => c.name)) =
      sub.forEach.map (replicaName marker sub.name sub.cmdString) := by
  obtain ⟨sEnd, newTasks, ttEnd, heq, hidx, htpl, hcmd, hnm⟩ :=
    replicaStep_foldl cache marker
      (fun a b c => create cache marker (fuel + 1) a b c)
      (fun s i v h => create_leaf cache marker fuel s i v h)
      sub.name sub.cmdString sub.forEach.length sub.forEach 0 sub []
      (if (inflate cache marker (Task.mk gc [sub]) dIdx []).cmdString ≠ []
       then 1 else 0)
      hleaf
  have hchildren :
      (create cache marker (fuel + 2) (Task.mk gc [sub]) dIdx []).1.parallelTasks
        = (createChildStep cache marker
            (fun a b c => create cache marker (fuel + 1) a b c) [] 1
            ([], if (inflate cache marker (Task.mk gc [sub]) dIdx []).cmdString ≠ []
              then 1 else 0)
            (0, sub)).1 := rfl
  have hchild2 :
      (createChildStep cache marker
          (fun a b c => create cache marker (fuel + 1) a b c) [] 1
          ([], if (inflate cache marker (Task.mk gc [sub]) dIdx []).cmdString ≠ []
            then 1 else 0)
          (0, sub)).1 = newTasks := by
    dsimp only [createChildStep]
    rw [if_pos hfe]
    rw [show List.enum sub.forEach = List.enumFrom 0 sub.forEach from rfl]
    rw [heq]
    simp
  rw [hchildren, hchild2]
  refine ⟨?_, ?_, hcmd, hnm⟩
  · rw [hidx]
    exact (List.range_eq_range' sub.forEach.length).symm
  · rw [htpl, List.range_eq_range']

/-- Claim C5 witness: the amended theorem applied to scenario S5 (a child
`say $V` / `echo $V` with for-each [x, y, z]). -/
theorem create_single_forEach_inflation_witness :
    forEachChild.parallelTasks = [] ∧
    ((create [] "$V".toList 2 (Task.mk { name := "grp".toList } [forEachChild]) 0
        []).1.parallelTasks.map (fun c => c.name)) =
      forEachChild.forEach.map
        (replicaName "$V".toList forEachChild.name forEachChild.cmdString) :=
  ⟨rfl,
    (create_single_forEach_inflation [] "$V".toList 0 { name := "grp".toList }
      forEachChild 0 rfl (by decide)).2.2.2⟩

/-! ## Claim C8 -/

/-- The length of a rendered line is the length of its fixed portion plus one
copy of the message per message slot and one copy of the split filler per
split slot. -/
theorem executeTemplate_cons (slot : Slot) (rest : Template) (v : LineInfo) :
    executeTemplate (slot :: rest) v =
      renderSlot v slot ++ executeTemplate rest v := rfl

/-- The length of a rendered line is the length of its fixed portion plus one
copy of the message per message slot and one copy of the split filler per
split slot. -/
theorem executeTemplate_length (tpl : Template) (v : LineInfo) :
    (executeTemplate tpl v).length =
      (executeTemplate tpl { v with msg := [], split := [] }).length
        + tpl.count .msgF * v.msg.length + tpl.count .splitF * v.split.length := by
  induction tpl with
  | nil => simp [executeTemplate]
  | cons slot rest ih =>
    simp only [executeTemplate_cons, List.length_append, ih, List.count_cons]
    cases slot <;> simp [renderSlot] <;> ring

/-- Blanking the message and split of the trimmed values recovers the fixed
portion measured in the first pass. -/
theorem trimmedValues_fixed (W : Nat) (tpl : Template) (v1 : LineInfo) :
    ({ status := (trimmedValues W tpl v1).status
     , title := (trimmedValues W tpl v1).title
     , msg := []
     , spinner := (trimmedValues W tpl v1).spinner
     , eta := (trimmedValues W tpl v1).eta
     , split := [] } : LineInfo) =
      { v1 with msg := [], split := [] } := by
  unfold trimmedValues
  dsimp only
  split <;> rfl

/-- The trimmed values carry an empty split filler. -/
theorem trimmedValues_split (W : Nat) (tpl : Template) (v1 : LineInfo) :
    (trimmedValues W tpl v1).split = [] := by
  unfold trimmedValues
  dsimp only
  split <;> rfl

/-- The message of the trimmed values: unchanged when it fits the fixed
budget, otherwise cut to the budget minus three cells with an ellipsis
appended. -/
theorem trimmedValues_msg (W : Nat) (tpl : Template) (v1 : LineInfo) :
    ((v1.msg.length : Int) ≤ (W : Int) -
        ((executeTemplate tpl { v1 with msg := [], split := [] }).length : Int) ∧
      (trimmedValues W tpl v1).msg = v1.msg) ∨
    ((W : Int) -
        ((executeTemplate tpl { v1 with msg := [], split := [] }).length : Int)
        < (v1.msg.length : Int) ∧
      (trimmedValues W tpl v1).msg =
        v1.msg.take ((W : Int) -
          ((executeTemplate tpl { v1 with msg := [], split := [] }).length : Int)
          - 3).toNat ++ "...".toList) := by
  unfold trimmedValues
  dsimp only
  split
  · rename_i h
    right
    refine ⟨by simpa [visualLength] using h, rfl⟩
  · rename_i h
    left
    refine ⟨by simpa [visualLength] using h, rfl⟩

/-- Claim C8 (counterexample): on a four-column terminal, a template with a
two-cell fixed prefix and a four-cell message renders the line `> ...` of
visual length five — not the terminal width four: the trim budget
`terminalWidth - fixedLen = 2` is below the three cells of the ellipsis, so
the renderer overflows the row. -/
theorem taskString_width_exceeded :
    (taskString 4 demoTemplate false 0 false { msg := "abcd".toList }).line.length
      = 5 ∧ (5 : Nat) ≠ 4 := by
  refine ⟨by decide, by decide⟩

/-- The three-pass renderer fills the line to exactly the terminal width
whenever the template has one message slot and one split slot and either the
message fits the fixed budget or the terminal is at least three cells wider
than the fixed portion; and at terminal width zero the split width is zero
regardless. -/
theorem renderPasses_width (W : Nat) (tpl : Template) (v1 : LineInfo)
    (hm : tpl.count .msgF = 1) (hs : tpl.count .splitF = 1) :
    (((v1.msg.length : Int) ≤ (W : Int) -
        ((executeTemplate tpl { v1 with msg := [], split := [] }).length : Int) ∨
      (executeTemplate tpl { v1 with msg := [], split := [] }).length + 3 ≤ W) →
      (renderPasses W tpl v1).line.length = W) ∧
    (W = 0 → (renderPasses W tpl v1).splitWidth = 0) := by
  have hlin : ∀ (v2 : LineInfo), (executeTemplate tpl v2).length =
      (executeTemplate tpl { v2 with msg := [], split := [] }).length
        + v2.msg.length + v2.split.length := by
    intro v2
    rw [executeTemplate_length tpl v2, hm, hs]
    ring
  have hTlen : (executeTemplate tpl (trimmedValues W tpl v1)).length =
      (executeTemplate tpl { v1 with msg := [], split := [] }).length
        + (trimmedValues W tpl v1).msg.length := by
    rw [hlin (trimmedValues W tpl v1), trimmedValues_fixed, trimmedValues_split]
    simp
  have hline : (renderPasses W tpl v1).line.length =
      (executeTemplate tpl { v1 with msg := [], split := [] }).length
        + (trimmedValues W tpl v1).msg.length + splitWidthOf W tpl v1 := by
    have h0 := hlin
      { status := (trimmedValues W tpl v1).status
      , title := (trimmedValues W tpl v1).title
      , msg := (trimmedValues W tpl v1).msg
      , spinner := (trimmedValues W tpl v1).spinner
      , eta := (trimmedValues W tpl v1).eta
      , split := List.replicate (splitWidthOf W tpl v1) ' ' }
    dsimp only at h0
    rw [trimmedValues_fixed] at h0
    show (executeTemplate tpl
      { status := (trimmedValues W tpl v1).status
      , title := (trimmedValues W tpl v1).title
      , msg := (trimmedValues W tpl v1).msg
      , spinner := (trimmedValues W tpl v1).spinner
      , eta := (trimmedValues W tpl v1).eta
      , split := List.replicate (splitWidthOf W tpl v1) ' ' }).length = _
    rw [h0]
    simp
  have hsw : splitWidthOf W tpl v1 =
      (if ((W : Int) - ((executeTemplate tpl (trimmedValues W tpl v1)).length : Int)) < 0
        then (0 : Int)
        else (W : Int) - ((executeTemplate tpl (trimmedValues W tpl v1)).length : Int)).toNat
      := rfl
  rw [hTlen] at hsw
  constructor
  · intro hfit
    rcases trimmedValues_msg W tpl v1 with ⟨hle, hmsg⟩ | ⟨hgt, hmsg⟩
    · -- the message fits: the split filler pads the line to the width
      rw [hline, hmsg]
      rw [hmsg] at hsw
      by_cases hneg : ((W : Int) -
          (((executeTemplate tpl { v1 with msg := [], split := [] }).length
            + v1.msg.length : Nat) : Int)) < 0
      · exfalso
        push_cast at hneg
        omega
      · rw [if_neg hneg] at hsw
        push_cast at hneg hle ⊢
        omega
    · -- the message was trimmed: the hypothesis forces a wide terminal
      have hwide : (executeTemplate tpl
          { v1 with msg := [], split := [] }).length + 3 ≤ W := by
        rcases hfit with hfit | hwide
        · exfalso
          omega
        · exact hwide
      have hmlen : (trimmedValues W tpl v1).msg.length =
          W - (executeTemplate tpl { v1 with msg := [], split := [] }).length := by
        rw [hmsg, List.length_append, List.length_take]
        have h3 : ("...".toList : Str).length = 3 := by decide
        rw [h3]
        omega
      rw [hline, hmlen]
      rw [hmlen] at hsw
      by_cases hneg : ((W : Int) -
          (((executeTemplate tpl { v1 with msg := [], split := [] }).length
            + (W - (executeTemplate tpl { v1 with msg := [], split := [] }).length) : Nat) : Int)) < 0
      · exfalso
        push_cast at hneg
        omega
      · rw [if_neg hneg] at hsw
        push_cast at hneg ⊢
        omega
  · intro hW
    subst hW
    show splitWidthOf 0 tpl v1 = 0
    rw [hsw]
    by_cases hneg : ((0 : Int) -
        (((executeTemplate tpl { v1 with msg := [], split := [] }).length
          + (trimmedValues 0 tpl v1).msg.length : Nat) : Int)) < 0
    · rw [if_pos ?_]
      · rfl
      · exact_mod_cast hneg
    · rw [if_neg ?_]
      · push_cast at hneg ⊢
        omega
      · exact_mod_cast hneg

/-- Claim C8 (amended): the line produced by the three-pass renderer has
visual length exactly the terminal width whenever either no trimming is
needed (the message fits `terminalWidth - fixedLen`) or the terminal is at
least three cells wider than the fixed portion; the trim rule and the
`max(0, terminalWidth - rendered)` split rule are as claimed, and at terminal
width zero the split width is zero.  (When trimming is forced with
`terminalWidth - fixedLen < 3`, the ellipsis overflows the row — see the
counterexample.) -/
theorem taskString_width_correct (W : Nat) (tpl : Template) (complete : Bool)
    (rc : Int) (ign : Bool) (v : LineInfo)
    (hm : tpl.count .msgF = 1) (hs : tpl.count .splitF = 1) :
    ((((preambleValues complete rc ign v).msg.length : Int) ≤ (W : Int) -
        ((executeTemplate tpl { preambleValues complete rc ign v with
          msg := [], split := [] }).length : Int) ∨
      (executeTemplate tpl { preambleValues complete rc ign v with
        msg := [], split := [] }).length + 3 ≤ W) →
      (taskString W tpl complete rc ign v).line.length = W) ∧
    (W = 0 → (taskString W tpl complete rc ign v).splitWidth = 0) :=
  renderPasses_width W tpl (preambleValues complete rc ign v) hm hs

/-- Claim C8 witness: the renderer fills a ten-column terminal exactly for a
four-cell message behind a two-cell fixed prefix. -/
theorem taskString_width_correct_witness :
    demoTemplate.count .msgF = 1 ∧
    (taskString 10 demoTemplate false 0 false { msg := "abcd".toList }).line.length
      = 10 :=
  ⟨by decide,
    (taskString_width_correct 10 demoTemplate false 0 false { msg := "abcd".toList }
      (by decide) (by decide)).1 (by decide)⟩

/-! ## Claim C7 -/

/-- Folding `min` over copies of a larger value leaves the accumulator. -/
theorem foldl_min_le_rep (x c : ℚ) (h : x ≤ c) (n : Nat) :
    (List.replicate n c).foldl min x = x := by
  induction n with
  | zero => rfl
  | succ n ih =>
    rw [List.replicate_succ, List.foldl_cons, min_eq_left h]
    exact ih

/-- Folding `max` over copies of a smaller value leaves the accumulator. -/
theorem foldl_max_ge_rep (x c : ℚ) (h : c ≤ x) (n : Nat) :
    (List.replicate n c).foldl max x = x := by
  induction n with
  | zero => rfl
  | succ n ih =>
    rw [List.replicate_succ, List.foldl_cons, max_eq_left h]
    exact ih

/-- Folding `max` over at least one copy of a larger value reaches it. -/
theorem foldl_max_rep_of_le (x c : ℚ) (h : x ≤ c) (n : Nat) (hn : 1 ≤ n) :
    (List.replicate n c).foldl max x = c := by
  cases n with
  | zero => omega
  | succ n =>
    rw [List.replicate_succ, List.foldl_cons, max_eq_right h]
    exact foldl_max_ge_rep c c le_rfl n

/-- The minimum of a two-block list starting with a nonempty block of the
smaller value. -/
theorem MinMax_fst_rep_append (x y : ℚ) (hxy : x ≤ y) (m n : Nat)
    (hm : 1 ≤ m) :
    (MinMax (List.replicate m x ++ List.replicate n y)).1 = x := by
  cases m with
  | zero => omega
  | succ m =>
    rw [List.replicate_succ, List.cons_append]
    show (List.replicate m x ++ List.replicate n y).foldl min x = x
    rw [List.foldl_append, foldl_min_le_rep x x le_rfl m]
    exact foldl_min_le_rep x y hxy n

/-- The maximum of a two-block list ending with a nonempty block of the
larger value. -/
theorem MinMax_snd_rep_append (x y : ℚ) (hxy : x ≤ y) (m n : Nat)
    (hn : 1 ≤ n) :
    (MinMax (List.replicate m x ++ List.replicate n y)).2 = y := by
  cases m with
  | zero =>
    rw [show List.replicate 0 x = ([] : List ℚ) from rfl, List.nil_append]
    cases n with
    | zero => omega
    | succ n =>
      rw [List.replicate_succ]
      show (List.replicate n y).foldl max y = y
      exact foldl_max_ge_rep y y le_rfl n
  | succ m =>
    rw [List.replicate_succ, List.cons_append]
    show (List.replicate m x ++ List.replicate n y).foldl max x = y
    rw [List.foldl_append, foldl_max_ge_rep x x le_rfl m]
    exact foldl_max_rep_of_le x y hxy n hn

/-- Removing the shared value from a two-block list shortens the first
block. -/
theorem removeFirst_rep_append (x : ℚ) (m : Nat) (hm : 1 ≤ m)
    (rest : List ℚ) :
    removeFirst x (List.replicate m x ++ rest) =
      List.replicate (m - 1) x ++ rest := by
  cases m with
  | zero => omega
  | succ m =>
    rw [List.replicate_succ, List.cons_append]
    simp [removeFirst]

/-- The minimum and maximum of a nonempty constant list. -/
theorem MinMax_rep (c : ℚ) (n : Nat) (hn : 1 ≤ n) :
    MinMax (List.replicate n c) = (c, c) := by
  cases n with
  | zero => omega
  | succ n =>
    rw [List.replicate_succ]
    show ((List.replicate n c).foldl min c, (List.replicate n c).foldl max c)
      = (c, c)
    rw [foldl_min_le_rep c c le_rfl n, foldl_max_ge_rep c c le_rfl n]

/-- Removing the value of a nonempty constant list drops one copy. -/
theorem removeFirst_rep (c : ℚ) (n : Nat) (hn : 1 ≤ n) :
    removeFirst c (List.replicate n c) = List.replicate (n - 1) c := by
  cases n with
  | zero => omega
  | succ n =>
    rw [List.replicate_succ]
    simp [removeFirst]

/-- One simulation step while free slots remain (first wave, `b < P`
children in flight): the new child is scheduled at time zero and the wave
grows by one. -/
theorem etaStep_simState_low (P : Nat) (d : ℚ) (_hd : 0 ≤ d) (b : Nat)
    (hb1 : 1 ≤ b) (hbP : b < P) :
    etaStep (etaSimState P d 0 b) d = etaSimState P d 0 (b + 1) := by
  have hmin : min (0 * P + b) P = b := by omega
  have hmin2 : min (0 * P + (b + 1)) P = b + 1 := by omega
  have hd01 : d * ((0 : Nat) : ℚ) + d = d * (((0 : Nat) : ℚ) + 1) := by
    push_cast
    ring
  unfold etaStep etaSimState
  rw [hmin, hmin2]
  have hc : ¬(((P : Int) - (b : Nat)) = 0) := by omega
  simp only [if_neg hc]
  rw [EtaAcc.mk.injEq]
  rw [Nat.sub_self, Nat.sub_self]
  rw [show List.replicate 0 (d * ((0 : Nat) : ℚ)) = ([] : List ℚ) from rfl]
  rw [List.nil_append, List.nil_append, hd01]
  refine ⟨?_, rfl, ?_, ?_⟩
  · rw [← List.replicate_succ']
  · push_cast
    ring
  · rw [show ([d * (((0 : Nat) : ℚ) + 1)] : List ℚ) =
      List.replicate 1 (d * (((0 : Nat) : ℚ) + 1)) from rfl]
    rw [← List.replicate_add]
    rw [MinMax_rep _ (b + 1) (by omega)]
    exact max_self _

/-- One simulation step with all slots taken and the current wave not yet
full (`b < P`, at least one earlier wave): the earliest end time is freed and
the new child ends one estimate later. -/
theorem etaStep_simState_mid (P : Nat) (d : ℚ) (hd : 0 ≤ d) (a b : Nat)
    (hb1 : 1 ≤ b) (hbP : b < P) (hge : P ≤ a * P + b) :
    etaStep (etaSimState P d a b) d = etaSimState P d a (b + 1) := by
  have hmin : min (a * P + b) P = P := by omega
  have hmin2 : min (a * P + (b + 1)) P = P := by omega
  have hxy : d * ((a : Nat) : ℚ) ≤ d * (((a : Nat) : ℚ) + 1) := by
    apply mul_le_mul_of_nonneg_left _ hd
    linarith
  have hda : d * ((a : Nat) : ℚ) + d = d * (((a : Nat) : ℚ) + 1) := by ring
  have hsub : P - b - 1 = P - (b + 1) := by omega
  unfold etaStep etaSimState
  rw [hmin, hmin2]
  have hc : (((P : Int) - (P : Nat)) = 0) := by omega
  simp only [if_pos hc]
  rw [MinMax_fst_rep_append _ _ hxy (P - b) b (by omega)]
  rw [removeFirst_rep_append _ (P - b) (by omega)]
  rw [List.append_assoc, hda]
  rw [show ([d * (((a : Nat) : ℚ) + 1)] : List ℚ) =
    List.replicate 1 (d * (((a : Nat) : ℚ) + 1)) from rfl]
  rw [← List.replicate_add, hsub]
  rw [EtaAcc.mk.injEq]
  refine ⟨rfl, rfl, ?_, ?_⟩
  · ring
  · rw [MinMax_snd_rep_append _ _ hxy (P - (b + 1)) (b + 1) (by omega)]
    exact max_self _

/-- One simulation step when the current wave is full (`b = P`): the wave
rolls over and the new child ends a full estimate after the freed slot. -/
theorem etaStep_simState_high (P : Nat) (d : ℚ) (hd : 0 ≤ d) (a : Nat)
    (hP : 1 ≤ P) :
    etaStep (etaSimState P d a P) d = etaSimState P d (a + 1) 1 := by
  have hmin : min (a * P + P) P = P := by omega
  have hmin2 : min ((a + 1) * P + 1) P = P := by
    have h1 : (a + 1) * P = a * P + P := by ring
    omega
  have hxy : d * (((a : Nat) : ℚ) + 1) ≤ d * (((a : Nat) : ℚ) + 1 + 1) := by
    apply mul_le_mul_of_nonneg_left _ hd
    linarith
  have hda : d * (((a : Nat) : ℚ) + 1) + d = d * (((a : Nat) : ℚ) + 1 + 1) := by
    ring
  have e1 : (((a + 1 : Nat)) : ℚ) = ((a : Nat) : ℚ) + 1 := by push_cast; ring
  unfold etaStep etaSimState
  rw [hmin, hmin2]
  have hc : (((P : Int) - (P : Nat)) = 0) := by omega
  simp only [if_pos hc]
  rw [Nat.sub_self]
  rw [show List.replicate 0 (d * ((a : Nat) : ℚ)) = ([] : List ℚ) from rfl]
  rw [List.nil_append]
  rw [show (MinMax (List.replicate P (d * (((a : Nat) : ℚ) + 1)))).1
      = (d * (((a : Nat) : ℚ) + 1), d * (((a : Nat) : ℚ) + 1)).1
    from congrArg Prod.fst (MinMax_rep _ P hP)]
  rw [removeFirst_rep _ P hP]
  rw [hda]
  rw [show ([d * (((a : Nat) : ℚ) + 1 + 1)] : List ℚ) =
    List.replicate 1 (d * (((a : Nat) : ℚ) + 1 + 1)) from rfl]
  rw [EtaAcc.mk.injEq]
  rw [e1]
  refine ⟨rfl, rfl, ?_, ?_⟩
  · ring
  · rw [MinMax_snd_rep_append _ _ hxy (P - 1) 1 le_rfl]
    exact max_eq_right hxy

/-- The running maximum of the closed-form simulation state. -/
theorem etaSimState_maxPar (P : Nat) (d : ℚ) (a b : Nat) :
    (etaSimState P d a b).maxParallelEstimatedRuntime = d * ((a : ℚ) + 1) := rfl

/-- The first simulation step from the start state. -/
theorem etaStep_init (P : Nat) (hP : 1 ≤ P) (d : ℚ) (hd : 0 ≤ d) :
    etaStep (etaInitState (P : Int)) d = etaSimState P d 0 1 := by
  have hmin : min (0 * P + 1) P = 1 := by omega
  unfold etaStep etaInitState etaSimState
  have hc : ¬((P : Int) = 0) := by omega
  simp only [if_neg hc]
  rw [hmin, EtaAcc.mk.injEq]
  refine ⟨?_, ?_, ?_, ?_⟩
  · simp [List.replicate]
  · simp
  · push_cast
    ring
  · rw [List.nil_append,
      show ([(0 : ℚ) + d] : List ℚ) = List.replicate 1 ((0 : ℚ) + d) from rfl,
      MinMax_rep _ 1 le_rfl]
    rw [show ((0 : ℚ) + d, (0 : ℚ) + d).2 = (0 : ℚ) + d from rfl]
    rw [max_eq_right (by linarith)]
    push_cast
    ring

/-- The bounded-parallel simulation over `k` identical estimates `d` reaches
the closed-form state for wave `(k-1)/P`, position `(k-1) % P + 1`. -/
theorem etaSim_loop (P : Nat) (hP : 1 ≤ P) (d : ℚ) (hd : 0 ≤ d) :
    ∀ (k : Nat), 1 ≤ k →
      (List.replicate k d).foldl etaStep (etaInitState (P : Int)) =
        etaSimState P d ((k - 1) / P) ((k - 1) % P + 1) := by
  intro k
  induction k with
  | zero => omega
  | succ k ih =>
    intro _
    by_cases hk : 1 ≤ k
    · rw [List.replicate_succ', List.foldl_append, ih hk]
      simp only [List.foldl_cons, List.foldl_nil]
      have hq := Nat.div_add_mod (k - 1) P
      set q := (k - 1) / P with hqdef
      set r := (k - 1) % P with hrdef
      have hr : r < P := Nat.mod_lt _ (by omega)
      by_cases hrP : r + 1 = P
      · rw [hrP, etaStep_simState_high P d hd q hP]
        have h1 : k = P * q + P := by omega
        have hdiv : k / P = q + 1 := by
          rw [h1, show P * q + P = P * (q + 1) by ring,
            Nat.mul_div_cancel_left _ (by omega : 0 < P)]
        have hmod : k % P = 0 := by
          rw [h1, show P * q + P = P * (q + 1) by ring]
          exact Nat.mul_mod_right _ _
        rw [show k + 1 - 1 = k from rfl, hdiv, hmod]
      · have hstep : etaStep (etaSimState P d q (r + 1)) d =
            etaSimState P d q (r + 1 + 1) := by
          rcases Nat.eq_zero_or_pos q with hq0 | hq0
          · rw [hq0]
            exact etaStep_simState_low P d hd (r + 1) (by omega) (by omega)
          · refine etaStep_simState_mid P d hd q (r + 1) (by omega) (by omega) ?_
            have h2 : P ≤ q * P := Nat.le_mul_of_pos_left P hq0
            omega
        rw [hstep]
        have h1 : k = (r + 1) + P * q := by omega
        have hdiv : k / P = q := by
          rw [h1, Nat.add_mul_div_left _ _ (by omega : 0 < P),
            Nat.div_eq_of_lt (by omega : r + 1 < P)]
          omega
        have hmod : k % P = r + 1 := by
          rw [h1, Nat.add_mul_mod_self_left,
            Nat.mod_eq_of_lt (by omega : r + 1 < P)]
        rw [show k + 1 - 1 = k from rfl, hdiv, hmod]
    · have hk0 : k = 0 := by omega
      subst hk0
      simp only [List.replicate_succ, List.replicate, List.foldl_cons,
        List.foldl_nil]
      rw [etaStep_init P hP d hd]
      simp

/-- The guarded fold of `EstimatedRuntime` equals the plain fold over the
children that have a command and a known estimate. -/
theorem eta_fold_filter (cs : List Task) (acc : EtaAcc) :
    cs.foldl
      (fun acc sub =>
        if sub.cmdString ≠ [] ∧ sub.command.estimatedRuntime ≠ -1 then
          etaStep acc (durationSeconds sub.command.estimatedRuntime)
        else acc) acc =
    ((cs.filter (fun c => decide (c.cmdString ≠ []) &&
        decide (c.command.estimatedRuntime ≠ -1))).map
      (fun c => durationSeconds c.command.estimatedRuntime)).foldl etaStep acc := by
  induction cs generalizing acc with
  | nil => rfl
  | cons c cs ih =>
    rw [List.foldl_cons, List.filter_cons]
    by_cases hc : c.cmdString ≠ [] ∧ c.command.estimatedRuntime ≠ -1
    · rw [if_pos hc, if_pos (by simpa using hc), List.map_cons, List.foldl_cons]
      exact ih _
    · rw [if_neg hc, if_neg (by simpa using hc)]
      exact ih _

/-- When every included child has the same estimate, the included estimates
are a constant list. -/
theorem eta_filter_map_const (D : Int) (cs : List Task)
    (hall : ∀ c ∈ cs, c.cmdString ≠ [] → c.command.estimatedRuntime ≠ -1 →
      c.command.estimatedRuntime = D) :
    ((cs.filter (fun c => decide (c.cmdString ≠ []) &&
        decide (c.command.estimatedRuntime ≠ -1))).map
      (fun c => durationSeconds c.command.estimatedRuntime)) =
    List.replicate
      ((cs.filter (fun c => decide (c.cmdString ≠ []) &&
        decide (c.command.estimatedRuntime ≠ -1))).length)
      (durationSeconds D) := by
  induction cs with
  | nil => rfl
  | cons c cs ih =>
    have hall2 : ∀ x ∈ cs, x.cmdString ≠ [] → x.command.estimatedRuntime ≠ -1 →
        x.command.estimatedRuntime = D :=
      fun x hx => hall x (List.mem_cons_of_mem _ hx)
    rw [List.filter_cons]
    by_cases hc : (decide (c.cmdString ≠ []) &&
        decide (c.command.estimatedRuntime ≠ -1)) = true
    · rw [if_pos hc, List.map_cons, List.length_cons, List.replicate_succ]
      have hest : c.command.estimatedRuntime = D := by
        simp only [Bool.and_eq_true, decide_eq_true_eq] at hc
        exact hall c (List.mem_cons_self _ _) hc.1 hc.2
      rw [hest, ih hall2]
    · rw [if_neg hc]
      exact ih hall2

/-- Claim C7: for a group of children that each either lack a command, have
an unknown estimate, or share the same known estimate `D` nanoseconds, the
group ETA computed by the bounded-parallel simulation with parallelism
`P ≥ 1` equals `D` seconds times `⌈N / P⌉`, where `N` counts the children
with a command and a known estimate (children with unknown estimates are
excluded from the simulation). -/
theorem estimatedRuntime_uniform (P : Nat) (hP : 1 ≤ P) (D : Int) (hD : 0 ≤ D)
    (gc : TaskCore) (children : List Task)
    (hgc : gc.cmdString = [])
    (hall : ∀ c ∈ children, c.cmdString ≠ [] → c.command.estimatedRuntime ≠ -1 →
      c.command.estimatedRuntime = D) :
    EstimatedRuntime (P : Int) (Task.mk gc children) =
      durationSeconds D *
        ((((children.filter (fun c => decide (c.cmdString ≠ []) &&
            decide (c.command.estimatedRuntime ≠ -1))).length) + P - 1) / P
          : Nat) := by
  have hd : 0 ≤ durationSeconds D := by
    unfold durationSeconds
    apply div_nonneg
    · exact_mod_cast hD
    · norm_num
  unfold EstimatedRuntime
  have hown : ¬((Task.mk gc children).cmdString ≠ [] ∧
      (Task.mk gc children).command.estimatedRuntime ≠ -1) := by
    intro h
    exact h.1 hgc
  rw [if_neg hown]
  rw [show (Task.mk gc children).parallelTasks = children from rfl]
  rw [eta_fold_filter]
  rw [eta_filter_map_const D children hall]
  rw [show (EtaAcc.mk [] 0 ((P : Nat) : Int) 0) =
    etaInitState ((P : Nat) : Int) from rfl]
  set N := (children.filter (fun c => decide (c.cmdString ≠ []) &&
      decide (c.command.estimatedRuntime ≠ -1))).length with hN
  rcases Nat.eq_zero_or_pos N with h0 | h1
  · rw [h0]
    rw [show ((List.replicate 0 (durationSeconds D)).foldl etaStep
      (etaInitState ((P : Nat) : Int))) = etaInitState ((P : Nat) : Int)
      from rfl]
    dsimp only
    rw [show (etaInitState ((P : Nat) : Int)).maxParallelEstimatedRuntime = 0
      from rfl]
    rw [Nat.div_eq_of_lt (by omega)]
    simp
  · rw [etaSim_loop P hP (durationSeconds D) hd N h1]
    dsimp only
    rw [etaSimState_maxPar]
    have h2 : (N + P - 1) / P = (N - 1) / P + 1 := by
      rw [show N + P - 1 = (N - 1) + P by omega, Nat.add_div_right _ (by omega)]
    rw [h2]
    push_cast
    ring

/-- Claim C7 witness: five children with a three-second estimate and one with
an unknown estimate, at parallelism two: the ETA is three times the
three-second estimate. -/
theorem estimatedRuntime_uniform_witness :
    (1 ≤ 2) ∧ (0 ≤ (3000000000 : Int)) ∧
    EstimatedRuntime 2 etaGroup =
      durationSeconds 3000000000 *
        ((((etaGroup.parallelTasks.filter (fun c => decide (c.cmdString ≠ []) &&
            decide (c.command.estimatedRuntime ≠ -1))).length) + 2 - 1) / 2
          : Nat) :=
  ⟨by decide, by decide,
    estimatedRuntime_uniform 2 (by decide) 3000000000 (by decide) {}
      etaGroup.parallelTasks rfl (by decide)⟩

end Bashful
